import Mathlib

/-!
Verification of the Vercel HTML-rewriting proxy (`src/API/proxy.js`,
`src/pages/API/proxy.js`) against its natural-language specification.

The JavaScript source is shallowly embedded: strings are Lean `String`s,
byte sequences are `List Nat` (each element `< 256`), JavaScript's
`undefined`/absent values become `Option`, and code that can throw is
modelled with `Option`/`Except`.
-/

/-! ## UTF-8 codec

`Buffer.from(str, "utf8")` / `buf.toString("utf8")` used by `b64Encode` /
`b64Decode` in `src/API/proxy.js` lines 14-19.  The encoder is total on
Lean `Char`s (every `Char` is a unicode scalar value); the decoder is the
strict inverse: it rejects malformed sequences with `none`, whereas Node
substitutes U+FFFD — on well-formed input (everything produced by the
encoder) the two agree. -/

/-- UTF-8 encoding of a single unicode scalar value, as its list of bytes. -/
def utf8EncodeChar (c : Char) : List Nat :=
  if c.toNat < 0x80 then [c.toNat]
  else if c.toNat < 0x800 then
    [0xC0 + c.toNat / 64, 0x80 + c.toNat % 64]
  else if c.toNat < 0x10000 then
    [0xE0 + c.toNat / 4096, 0x80 + c.toNat / 64 % 64, 0x80 + c.toNat % 64]
  else
    [0xF0 + c.toNat / 262144, 0x80 + c.toNat / 4096 % 64,
     0x80 + c.toNat / 64 % 64, 0x80 + c.toNat % 64]

/-- UTF-8 encoding of a list of characters. -/
def utf8EncodeList : List Char → List Nat
  | [] => []
  | c :: cs => utf8EncodeChar c ++ utf8EncodeList cs

/-- Decoding step for one UTF-8 sequence: first byte plus following bytes,
returning the decoded scalar value and the unconsumed remainder; `none` on
a malformed sequence (overlong forms, surrogates, out-of-range rejected). -/
def utf8DecodeOne (b : Nat) (bs : List Nat) : Option (Char × List Nat) :=
  if b < 0x80 then some (Char.ofNat b, bs)
  else if 0xC2 ≤ b ∧ b < 0xE0 then
    match bs with
    | b1 :: bs1 =>
      if 0x80 ≤ b1 ∧ b1 < 0xC0 then
        some (Char.ofNat ((b - 0xC0) * 64 + (b1 - 0x80)), bs1)
      else none
    | [] => none
  else if 0xE0 ≤ b ∧ b < 0xF0 then
    match bs with
    | b1 :: b2 :: bs1 =>
      if 0x80 ≤ b1 ∧ b1 < 0xC0 ∧ 0x80 ≤ b2 ∧ b2 < 0xC0 ∧
          0x800 ≤ (b - 0xE0) * 4096 + (b1 - 0x80) * 64 + (b2 - 0x80) ∧
          ¬(0xD800 ≤ (b - 0xE0) * 4096 + (b1 - 0x80) * 64 + (b2 - 0x80) ∧
            (b - 0xE0) * 4096 + (b1 - 0x80) * 64 + (b2 - 0x80) < 0xE000) then
        some (Char.ofNat ((b - 0xE0) * 4096 + (b1 - 0x80) * 64 + (b2 - 0x80)), bs1)
      else none
    | _ => none
  else if 0xF0 ≤ b ∧ b < 0xF5 then
    match bs with
    | b1 :: b2 :: b3 :: bs1 =>
      if 0x80 ≤ b1 ∧ b1 < 0xC0 ∧ 0x80 ≤ b2 ∧ b2 < 0xC0 ∧ 0x80 ≤ b3 ∧ b3 < 0xC0 ∧
          0x10000 ≤ (b - 0xF0) * 262144 + (b1 - 0x80) * 4096 + (b2 - 0x80) * 64 + (b3 - 0x80) ∧
          (b - 0xF0) * 262144 + (b1 - 0x80) * 4096 + (b2 - 0x80) * 64 + (b3 - 0x80) < 0x110000 then
        some (Char.ofNat
          ((b - 0xF0) * 262144 + (b1 - 0x80) * 4096 + (b2 - 0x80) * 64 + (b3 - 0x80)), bs1)
      else none
    | _ => none
  else none

/-- Fuel-driven UTF-8 decoding loop; each step consumes at least one
byte, so fuel equal to the list length always suffices. -/
def utf8DecodeFuel : Nat → List Nat → Option (List Char)
  | _, [] => some []
  | 0, _ :: _ => none
  | fuel + 1, b :: bs =>
    match utf8DecodeOne b bs with
    | some cr => (utf8DecodeFuel fuel cr.2).map (fun cs => cr.1 :: cs)
    | none => none

/-- UTF-8 decoding of a byte list; `none` on a malformed sequence. -/
def utf8Decode (l : List Nat) : Option (List Char) :=
  utf8DecodeFuel l.length l

/-! ## URL-safe base64 codec

`b64Encode` / `b64Decode` from `src/API/proxy.js` lines 14-19:

    function b64Encode(str) \x7b
      return Buffer.from(str, "utf8").toString("base64url"); // base64url avoids +/=
    \x7d
    function b64Decode(b64) \x7b
      return Buffer.from(b64, "base64url").toString("utf8");
    \x7d

`base64url` uses the alphabet `A-Z a-z 0-9 - _` and emits no `=` padding.
Two decoders are modelled.  `b64DecodeBytes`/`b64Decode` form the strict
codec: the exact inverse of the encoder, `none` outside its image; the
round-trip property is about this inverse.  `b64DecodeLenient` below it
models what Node's `Buffer.from(b64, "base64url").toString("utf8")`
actually computes — a total function that never fails — and is what the
request handler runs on inbound tokens; `b64DecodeLenient_of_strict`
proves the two agree wherever the strict decoder succeeds. -/

/-- Character for a 6-bit value in the base64url alphabet. -/
def sextetToChar (s : Nat) : Char :=
  if s < 26 then Char.ofNat ('A'.toNat + s)
  else if s < 52 then Char.ofNat ('a'.toNat + (s - 26))
  else if s < 62 then Char.ofNat ('0'.toNat + (s - 52))
  else if s = 62 then '-'
  else '_'

/-- Inverse of `sextetToChar`; `none` for characters outside the
base64url alphabet. -/
def sextetVal (c : Char) : Option Nat :=
  if 'A' ≤ c ∧ c ≤ 'Z' then some (c.toNat - 'A'.toNat)
  else if 'a' ≤ c ∧ c ≤ 'z' then some (c.toNat - 'a'.toNat + 26)
  else if '0' ≤ c ∧ c ≤ '9' then some (c.toNat - '0'.toNat + 52)
  else if c = '-' then some 62
  else if c = '_' then some 63
  else none

/-- Padding-free base64url serialization of a byte list. -/
def b64EncodeBytes : List Nat → List Char
  | [] => []
  | [a] => [sextetToChar (a / 4), sextetToChar (a % 4 * 16)]
  | [a, b] =>
    [sextetToChar (a / 4), sextetToChar (a % 4 * 16 + b / 16), sextetToChar (b % 16 * 4)]
  | a :: b :: c :: rest =>
    sextetToChar (a / 4) :: sextetToChar (a % 4 * 16 + b / 16) ::
    sextetToChar (b % 16 * 4 + c / 64) :: sextetToChar (c % 64) :: b64EncodeBytes rest

/-- Base64url deserialization back to bytes; `none` on characters outside
the alphabet or a trailing group of one character. -/
def b64DecodeBytes : List Char → Option (List Nat)
  | [] => some []
  | [_] => none
  | [c1, c2] => do
    let s1 ← sextetVal c1
    let s2 ← sextetVal c2
    pure [s1 * 4 + s2 / 16]
  | [c1, c2, c3] => do
    let s1 ← sextetVal c1
    let s2 ← sextetVal c2
    let s3 ← sextetVal c3
    pure [s1 * 4 + s2 / 16, s2 % 16 * 16 + s3 / 4]
  | c1 :: c2 :: c3 :: c4 :: rest => do
    let s1 ← sextetVal c1
    let s2 ← sextetVal c2
    let s3 ← sextetVal c3
    let s4 ← sextetVal c4
    let tail ← b64DecodeBytes rest
    pure ((s1 * 4 + s2 / 16) :: (s2 % 16 * 16 + s3 / 4) :: (s3 % 4 * 64 + s4) :: tail)

/-- String-level `b64Encode` (`src/API/proxy.js` line 14): UTF-8 bytes of
the string, serialized with padding-free base64url. -/
def b64Encode (s : String) : String :=
  String.mk (b64EncodeBytes (utf8EncodeList s.data))

/-- String-level strict decoder: inverse of `b64Encode`, `none` on
tokens outside the strict codec (non-alphabet characters, a dangling
1-character group, or bytes that are not valid UTF-8).  The handler
itself runs `b64DecodeLenient`; the two agree wherever this succeeds
(`b64DecodeLenient_of_strict`). -/
def b64Decode (t : String) : Option String :=
  (b64DecodeBytes t.data).bind (fun bs => (utf8Decode bs).map String.mk)

/-- Node's base64 decode table (`unbase64`): it accepts the standard and
the URL-safe alphabet alike, mapping `+` and `-` to 62 and `/` and `_`
to 63; everything else is not a base64 character. -/
def b64SextetLenient (c : Char) : Option Nat :=
  if 'A' ≤ c ∧ c ≤ 'Z' then some (c.toNat - 'A'.toNat)
  else if 'a' ≤ c ∧ c ≤ 'z' then some (c.toNat - 'a'.toNat + 26)
  else if '0' ≤ c ∧ c ≤ '9' then some (c.toNat - '0'.toNat + 52)
  else if c = '-' ∨ c = '+' then some 62
  else if c = '_' ∨ c = '/' then some 63
  else none

/-- The character scan of Node's base64 decoder: characters outside the
alphabet (whitespace included) are skipped, `=` stops decoding.  (Node
first narrows each UTF-16 unit to a byte; for the ASCII tokens the
handler sees, skipping non-alphabet characters is the same thing.) -/
def b64FilterChars : List Char → List Nat
  | [] => []
  | c :: rest =>
    match b64SextetLenient c with
    | some v => v :: b64FilterChars rest
    | none => if c = '=' then [] else b64FilterChars rest

/-- Byte assembly of Node's base64 decoder: full groups of four sextets
give three bytes, a trailing group of three gives two, of two gives one,
and a dangling single sextet contributes nothing. -/
def b64SextetsToBytes : List Nat → List Nat
  | s1 :: s2 :: s3 :: s4 :: rest =>
    (s1 * 4 + s2 / 16) :: (s2 % 16 * 16 + s3 / 4) :: (s3 % 4 * 64 + s4) ::
      b64SextetsToBytes rest
  | [s1, s2, s3] => [s1 * 4 + s2 / 16, s2 % 16 * 16 + s3 / 4]
  | [s1, s2] => [s1 * 4 + s2 / 16]
  | _ => []

/-- One step of the replacing UTF-8 decoder used by
`buf.toString("utf8")` (the WHATWG decoder V8 implements): a valid
sequence yields its scalar value; anything else yields U+FFFD and
consumes the maximal subpart read so far, leaving the rest for the next
step.  The second-byte constraints (`0xE0 → ≥ 0xA0`, `0xED → ≤ 0x9F`,
`0xF0 → ≥ 0x90`, `0xF4 → ≤ 0x8F`) rule out overlong forms, surrogates
and values past U+10FFFF. -/
def utf8LossyOne (b : Nat) (bs : List Nat) : Char × List Nat :=
  if b < 0x80 then (Char.ofNat b, bs)
  else if 0xC2 ≤ b ∧ b < 0xE0 then
    match bs with
    | b1 :: bs1 =>
      if 0x80 ≤ b1 ∧ b1 < 0xC0 then (Char.ofNat ((b - 0xC0) * 64 + (b1 - 0x80)), bs1)
      else (Char.ofNat 0xFFFD, b1 :: bs1)
    | [] => (Char.ofNat 0xFFFD, [])
  else if 0xE0 ≤ b ∧ b < 0xF0 then
    match bs with
    | b1 :: bs1 =>
      if 0x80 ≤ b1 ∧ b1 < 0xC0 ∧ (b = 0xE0 → 0xA0 ≤ b1) ∧ (b = 0xED → b1 ≤ 0x9F) then
        match bs1 with
        | b2 :: bs2 =>
          if 0x80 ≤ b2 ∧ b2 < 0xC0 then
            (Char.ofNat ((b - 0xE0) * 4096 + (b1 - 0x80) * 64 + (b2 - 0x80)), bs2)
          else (Char.ofNat 0xFFFD, b2 :: bs2)
        | [] => (Char.ofNat 0xFFFD, [])
      else (Char.ofNat 0xFFFD, b1 :: bs1)
    | [] => (Char.ofNat 0xFFFD, [])
  else if 0xF0 ≤ b ∧ b < 0xF5 then
    match bs with
    | b1 :: bs1 =>
      if 0x80 ≤ b1 ∧ b1 < 0xC0 ∧ (b = 0xF0 → 0x90 ≤ b1) ∧ (b = 0xF4 → b1 ≤ 0x8F) then
        match bs1 with
        | b2 :: bs2 =>
          if 0x80 ≤ b2 ∧ b2 < 0xC0 then
            match bs2 with
            | b3 :: bs3 =>
              if 0x80 ≤ b3 ∧ b3 < 0xC0 then
                (Char.ofNat ((b - 0xF0) * 262144 + (b1 - 0x80) * 4096 + (b2 - 0x80) * 64 +
                  (b3 - 0x80)), bs3)
              else (Char.ofNat 0xFFFD, b3 :: bs3)
            | [] => (Char.ofNat 0xFFFD, [])
          else (Char.ofNat 0xFFFD, b2 :: bs2)
        | [] => (Char.ofNat 0xFFFD, [])
      else (Char.ofNat 0xFFFD, b1 :: bs1)
    | [] => (Char.ofNat 0xFFFD, [])
  else (Char.ofNat 0xFFFD, bs)

/-- Fuel-driven loop of the replacing decoder; every step consumes at
least one byte, so fuel equal to the list length suffices. -/
def utf8LossyFuel : Nat → List Nat → List Char
  | _, [] => []
  | 0, _ :: _ => []
  | fuel + 1, b :: bs =>
    (utf8LossyOne b bs).1 :: utf8LossyFuel fuel (utf8LossyOne b bs).2

/-- The replacing UTF-8 decoder: total, malformed input becomes U+FFFD. -/
def utf8DecodeLossy (bs : List Nat) : List Char :=
  utf8LossyFuel bs.length bs

/-- What `b64Decode` in the source (`src/API/proxy.js` lines 17-19)
actually computes: Node's `Buffer.from(b64, "base64url")` never throws
(non-alphabet characters are skipped, `=` stops decoding, a dangling
sextet is dropped) and `toString("utf8")` replaces malformed sequences
with U+FFFD, so every token decodes to some string. -/
def b64DecodeLenient (t : String) : String :=
  String.mk (utf8DecodeLossy (b64SextetsToBytes (b64FilterChars t.data)))

/-! ## URL model

The handler relies on the WHATWG `URL` class (`new URL(s)` and
`new URL(ref, base)`, `src/API/proxy.js` lines 22, 116, 140).  That
library behaviour is embedded below for the fragment of URLs the proxy
manipulates: `http`/`https` URLs get scheme/host/path/query/fragment

structure (scheme and host lowercased, empty path normalised to `/`,
dot segments removed); any other valid scheme parses as a
scheme-plus-opaque-remainder URL (enough to model `u.protocol` checks
and `toString`, which is all the source reads from non-http URLs);
schemeless strings fail to parse, modelling the constructor throwing.
Percent-encoding normalisation, whitespace stripping, ports and
userinfo are outside the modelled fragment. -/

/-- Scheme characters per the URL standard: ALPHA / DIGIT / `+` / `-` / `.`. -/
def isSchemeChar (c : Char) : Bool :=
  c.isAlpha || c.isDigit || c == '+' || c == '-' || c == '.'

/-- Lowercase a character list (ASCII). -/
def toLowerStr (l : List Char) : List Char :=
  l.map Char.toLower

/-- Extract `scheme:` from the front of a URL string; `none` when the
string has no valid scheme prefix (the `new URL` constructor throws). -/
def parseScheme (l : List Char) : Option (String × List Char) :=
  match l with
  | [] => none
  | c :: _ =>
    if c.isAlpha then
      let sch := l.takeWhile isSchemeChar
      match l.drop sch.length with
      | ':' :: rest => some (String.mk (toLowerStr sch), rest)
      | _ => none
    else none

/-- Model of JavaScript `String.prototype.split` with a one-character
separator (always returns at least one piece; keeps empty pieces). -/
def jsSplitChar (sep : Char) : List Char → List (List Char)
  | [] => [[]]
  | c :: rest =>
    if c = sep then [] :: jsSplitChar sep rest
    else
      match jsSplitChar sep rest with
      | t :: ts => (c :: t) :: ts
      | [] => [[c]]

/-- Split off the fragment at the first `#` (fragment excludes the `#`). -/
def splitFragment (l : List Char) : List Char × Option (List Char) :=
  let before := l.takeWhile (fun c => !(c == '#'))
  if before.length = l.length then (l, none)
  else (before, some (l.drop (before.length + 1)))

/-- Split off the query at the first `?` (query excludes the `?`). -/
def splitQuery (l : List Char) : List Char × Option (List Char) :=
  let before := l.takeWhile (fun c => !(c == '?'))
  if before.length = l.length then (l, none)
  else (before, some (l.drop (before.length + 1)))

/-- Drop the last segment of a list of path segments, never removing the
leading root segment. -/
def popSeg (acc : List String) : List String :=
  acc.dropLast

/-- RFC 3986 / WHATWG dot-segment processing over the segments after the
root: `.` is dropped, `..` pops a segment, trailing `.`/`..` leave a
trailing empty segment (trailing slash). -/
def dotProcess (acc : List String) : List String → List String
  | [] => acc
  | [last] =>
    if last = "." then acc ++ [""]
    else if last = ".." then popSeg acc ++ [""]
    else acc ++ [last]
  | seg :: rest =>
    if seg = "." then dotProcess acc rest
    else if seg = ".." then dotProcess (popSeg acc) rest
    else dotProcess (acc ++ [seg]) rest

/-- Remove dot segments from a rooted path (starting with `/`). -/
def removeDotSegments (p : List Char) : List Char :=
  match (jsSplitChar '/' p).map String.mk with
  | [] => p
  | root :: rest => (String.intercalate "/" (root :: dotProcess [] rest)).data

/-- Parsed URL: either a special (`http`/`https`) URL with structure, or
any other valid scheme with its opaque remainder. -/
inductive URLRec where
  | special (scheme host path : String) (query fragm : Option String)
  | other (scheme rest : String)

/-- Serialization, as read back by `.toString()` / `.href`. -/
def urlToString : URLRec → String
  | .special sch host path query fragm =>
    sch ++ "://" ++ host ++ path ++
    (match query with | some q => "?" ++ q | none => "") ++
    (match fragm with | some f => "#" ++ f | none => "")
  | .other sch rest => sch ++ ":" ++ rest

/-- The `protocol` property: lowercased scheme plus `:`. -/
def urlProtocol : URLRec → String
  | .special sch _ _ _ _ => sch ++ ":"
  | .other sch _ => sch ++ ":"

/-- Model of `new URL(s)` without a base: `none` when the constructor
throws (no scheme, or an `http(s)` URL without a host). -/
def parseURL (s : String) : Option URLRec :=
  match parseScheme s.data with
  | none => none
  | some (sch, rest) =>
    if sch = "http" ∨ sch = "https" then
      let rest1 := rest.dropWhile (fun c => c == '/')
      let host := rest1.takeWhile (fun c => !(c == '/') && !(c == '?') && !(c == '#'))
      if host.isEmpty then none
      else
        let after := rest1.drop host.length
        let (beforeFrag, fragm) := splitFragment after
        let (pathPart, query) := splitQuery beforeFrag
        let path := if pathPart.isEmpty then "/" else String.mk (removeDotSegments pathPart)
        some (.special sch (String.mk (toLowerStr host)) path
          (query.map String.mk) (fragm.map String.mk))
    else
      some (.other sch (String.mk rest))

/-- Directory prefix of a rooted path: everything up to and including the
last `/`. -/
def dirOf (p : List Char) : List Char :=
  p.take (p.length - (p.reverse.takeWhile (fun c => !(c == '/'))).length)

/-- Split a relative reference into path, query and fragment pieces. -/
def splitRefPieces (l : List Char) : List Char × Option (List Char) × Option (List Char) :=
  let (bf, fr) := splitFragment l
  let (p, q) := splitQuery bf
  (p, q, fr)

/-- Model of `new URL(ref, base)`: absolute references parse on their
own; otherwise protocol-relative, absolute-path, query-only,
fragment-only, empty and relative-path references resolve against the
base; `none` when the constructor throws. -/
def resolveURL (ref base : String) : Option String :=
  match parseURL ref with
  | some u => some (urlToString u)
  | none =>
    match parseURL base with
    | some (.special sch host path query fragm) =>
      match ref.data with
      | [] => some (urlToString (.special sch host path query fragm))
      | '/' :: '/' :: _ => (parseURL (sch ++ ":" ++ ref)).map urlToString
      | '/' :: _ =>
        let (p, q, f) := splitRefPieces ref.data
        some (urlToString (.special sch host (String.mk (removeDotSegments p))
          (q.map String.mk) (f.map String.mk)))
      | '?' :: rest =>
        let (qpart, f) := splitFragment rest
        some (urlToString (.special sch host path (some (String.mk qpart)) (f.map String.mk)))
      | '#' :: rest =>
        some (urlToString (.special sch host path query (some (String.mk rest))))
      | _ =>
        let (p, q, f) := splitRefPieces ref.data
        some (urlToString (.special sch host
          (String.mk (removeDotSegments (dirOf path.data ++ p)))
          (q.map String.mk) (f.map String.mk)))
    | _ => none

/-- `isHttpUrl` from `src/API/proxy.js` lines 20-27: parse with
`new URL` and test `protocol` against `http:` / `https:`; `false` when
the constructor throws. -/
def isHttpUrl (s : String) : Bool :=
  match parseURL s with
  | some u => urlProtocol u == "http:" || urlProtocol u == "https:"
  | none => false

/-! ## Request validation and reference proxification (`src/API/proxy.js`) -/

/-- Truthiness of a JavaScript string-or-undefined value: absent and
empty strings are falsy. -/
def truthy : Option String → Bool
  | none => false
  | some v => !(v == "")

/-- Model of JavaScript `String.prototype.startsWith`. -/
def jsStartsWith (s p : String) : Bool :=
  p.data.isPrefixOf s.data

/-- The `proxify` helper, `src/API/proxy.js` lines 130-145: falsy and
`javascript:`/`data:`/`mailto:`-prefixed references are returned
unchanged; otherwise the reference is resolved against the target and
the resolved URL is encoded into a `/p/<token>` proxy path; when
`new URL` throws, the catch returns the reference unchanged. -/
def proxify (targetUrl rawUrl : String) : String :=
  if rawUrl = "" then rawUrl
  else if jsStartsWith rawUrl "javascript:" || jsStartsWith rawUrl "data:" ||
      jsStartsWith rawUrl "mailto:" then rawUrl
  else
    match resolveURL rawUrl targetUrl with
    | some resolved => "/p/" ++ b64Encode resolved
    | none => rawUrl

/-! ## Header sets and the response path (`src/API/proxy.js` lines 46-122)

HTTP header collections are total functions from lowercase header names
to optional values (Node and the Fetch API treat names
case-insensitively; the model uses the lowercase representative). -/

/-- Set (or overwrite) one header, as `res.setHeader(k, v)`. -/
def updateHeader (h : String → Option String) (k v : String) : String → Option String :=
  fun q => if q = k then some v else h q

/-- The empty header collection (`const headers = \x7b\x7d`). -/
def emptyHeaders : String → Option String := fun _ => none

/-- `FORWARD_ALLOW`, `src/API/proxy.js` lines 49-58. -/
def FORWARD_ALLOW : List String :=
  ["accept", "accept-language", "content-type", "range", "if-range", "if-none-match",
   "cache-control", "x-requested-with"]

/-- One iteration of the allow-list copy loop (lines 59-61): copy the
header when the inbound value is truthy. -/
def forwardStep (req : String → Option String) (acc : String → Option String) (n : String) :
    String → Option String :=
  match req n with
  | some v => if v ≠ "" then updateHeader acc n v else acc
  | none => acc

/-- Cookie opt-in (lines 66-68): forward `cookie` only when the
`forwardCookies` query parameter is exactly `"1"` and the inbound cookie
header is truthy. -/
def applyCookie (req : String → Option String) (flag : Option String)
    (h : String → Option String) : String → Option String :=
  match req "cookie" with
  | some v => if flag = some "1" ∧ v ≠ "" then updateHeader h "cookie" v else h
  | none => h

/-- Range re-copy (line 82): `if (req.headers.range) headers.range = ...`. -/
def applyRange (req : String → Option String) (h : String → Option String) :
    String → Option String :=
  match req "range" with
  | some v => if v ≠ "" then updateHeader h "range" v else h
  | none => h

/-- The complete header set passed to `fetch` (lines 47-82): allow-list
copy, then cookie opt-in, then the redundant range copy. -/
def buildForwardHeaders (req : String → Option String) (flag : Option String) :
    String → Option String :=
  applyRange req (applyCookie req flag (FORWARD_ALLOW.foldl (forwardStep req) emptyHeaders))

/-- Upstream response as seen after `fetch` resolves: status and headers
(lowercase names). -/
structure Upstream where
  status : Nat
  headers : String → Option String

/-- Outbound response: status, headers and body. -/
structure OutResponse where
  status : Nat
  headers : String → Option String
  body : String

/-- `HIDE_HEADERS`, `src/API/proxy.js` line 98. -/
def HIDE_HEADERS : List String := ["set-cookie", "server", "x-powered-by"]

/-- Header copy loop of lines 99-104: upstream headers minus the hide
set and `referrer-policy`. -/
def copyUpstreamHeaders (up : String → Option String) : String → Option String :=
  fun k => if k ∈ HIDE_HEADERS ∨ k = "referrer-policy" then none else up k

/-- Outbound headers right before branching (lines 99-107): the copy
loop followed by `res.setHeader("Referrer-Policy", "no-referrer")`. -/
def baseOutHeaders (up : String → Option String) : String → Option String :=
  updateHeader (copyUpstreamHeaders up) "referrer-policy" "no-referrer"

/-- Redirect branch, `src/API/proxy.js` lines 112-122: for every 3xx
status the response ends here with the upstream status and no body; a
truthy `Location` is resolved against the target and replaced by its
proxy-addressed form (`new URL` throwing propagates to the outer catch,
modelled as `.error`); `.ok none` means a non-3xx status falls through
to the content branches. -/
def redirectStep (targetUrl : String) (up : Upstream) : Except String (Option OutResponse) :=
  if 300 ≤ up.status ∧ up.status < 400 then
    let base := baseOutHeaders up.headers
    match up.headers "location" with
    | some loc =>
      if loc = "" then .ok (some ⟨up.status, base, ""⟩)
      else
        match resolveURL loc targetUrl with
        | some resolved =>
          .ok (some ⟨up.status, updateHeader base "location" ("/p/" ++ b64Encode resolved), ""⟩)
        | none => .error "Proxy error"
    | none => .ok (some ⟨up.status, base, ""⟩)
  else .ok none

/-! ## String utilities of the rewriting engine -/

/-- Model of JavaScript `String.prototype.trim`. -/
def jsTrim (s : String) : String :=
  String.mk (((s.data.dropWhile Char.isWhitespace).reverse.dropWhile Char.isWhitespace).reverse)

/-- Model of JavaScript `Array.prototype.join`. -/
def jsJoin (sep : String) : List String → String
  | [] => ""
  | [x] => x
  | x :: xs => x ++ sep ++ jsJoin sep xs

/-- Model of JavaScript `String.prototype.split` with the regular
expression `/\s+/`: maximal whitespace runs separate the pieces; a
leading (resp. trailing) run contributes a leading (resp. trailing)
empty piece. -/
def splitWsAux : List Char → List (List Char)
  | [] => [[]]
  | [c] => if c.isWhitespace then [[], []] else [[c]]
  | c :: d :: rest =>
    if c.isWhitespace then
      if d.isWhitespace then splitWsAux (d :: rest)
      else [] :: splitWsAux (d :: rest)
    else
      match splitWsAux (d :: rest) with
      | t :: ts => (c :: t) :: ts
      | [] => [[c]]

/-- String-level `split(/\s+/)`. -/
def jsSplitWs (s : String) : List String :=
  (splitWsAux s.data).map String.mk

/-- Model of JavaScript `String.prototype.split` with a non-empty string
separator: greedy left-to-right scan. -/
def splitOnSubFuel (sep : List Char) : Nat → List Char → List (List Char)
  | _, [] => [[]]
  | 0, l => [l]
  | fuel + 1, c :: rest =>
    if sep ≠ [] ∧ sep.isPrefixOf (c :: rest) then
      [] :: splitOnSubFuel sep fuel ((c :: rest).drop sep.length)
    else
      match splitOnSubFuel sep fuel rest with
      | t :: ts => (c :: t) :: ts
      | [] => [[c]]

/-- Greedy left-to-right split on a substring separator; every step
consumes at least one character, so fuel equal to the input length
suffices. -/
def splitOnSub (sep l : List Char) : List (List Char) :=
  splitOnSubFuel sep l.length l

/-- String-level `split` with a string separator. -/
def jsSplitStr (s sep : String) : List String :=
  (splitOnSub sep.data s.data).map String.mk

/-! ## HTML rewrite rules (`src/API/proxy.js` lines 125-282)

The document is modelled after parsing: a list of elements, each with a
tag name, an attribute list (first occurrence wins on lookup, in-place
update on set — cheerio's `attr` behaviour) and its inner text (used
only by `<style>` blocks).  The source runs one `each` pass per
selector over the whole document; every pass reads and writes only the
element under its cursor, so the sequence of whole-document passes
equals one per-element composition of the per-node rules, applied in
source order.  The source additionally appends a constant client-side
script string to `<head>` (lines 236-276) on every rewrite; the model
omits it, which only removes one further source of divergence between
repeated rewrites. -/

/-- A parsed markup element. -/
structure Elem where
  tag : String
  attrs : List (String × String)
  text : String
deriving DecidableEq

/-- Attribute lookup (`$(el).attr(k)`). -/
def getAttr (e : Elem) (k : String) : Option String :=
  (e.attrs.find? (fun p => p.1 == k)).map Prod.snd

/-- Attribute update on the underlying list. -/
def setAttrList : List (String × String) → String → String → List (String × String)
  | [], k, v => [(k, v)]
  | (k', v') :: rest, k, v =>
    if k' = k then (k, v) :: rest else (k', v') :: setAttrList rest k v

/-- Attribute update (`$(el).attr(k, v)`). -/
def setAttr (e : Elem) (k v : String) : Elem :=
  { e with attrs := setAttrList e.attrs k v }

/-- Inner-text update (`$(el).html(t)`). -/
def setText (e : Elem) (t : String) : Elem :=
  { e with text := t }

/-- Anchor pass, lines 148-156: proxify a truthy `href` and append
`" noreferrer noopener"` to the `rel` attribute (trimmed). -/
def anchorRule (target : String) (e : Elem) : Elem :=
  if e.tag = "a" then
    match getAttr e "href" with
    | some href =>
      if href = "" then e
      else
        let e1 := setAttr e "href" (proxify target href)
        setAttr e1 "rel" (jsTrim (((getAttr e1 "rel").getD "") ++ " noreferrer noopener"))
    | none => e
  else e

/-- Membership in the resource selector list, lines 159-168 (for `link`
only with `rel="stylesheet"`). -/
def isResourceElem (e : Elem) : Bool :=
  e.tag == "img" || e.tag == "script" || e.tag == "iframe" || e.tag == "video" ||
  e.tag == "audio" || e.tag == "source" || e.tag == "embed" ||
  (e.tag == "link" && getAttr e "rel" == some "stylesheet")

/-- Resource pass, lines 169-181: pick `src` if truthy, else `href` if
truthy, and proxify it. -/
def resourceRule (target : String) (e : Elem) : Elem :=
  if isResourceElem e then
    match (if truthy (getAttr e "src") then some "src"
           else if truthy (getAttr e "href") then some "href" else none) with
    | some a =>
      match getAttr e a with
      | some v => if v = "" then e else setAttr e a (proxify target v)
      | none => e
    | none => e
  else e

/-- Link pass, lines 183-187: proxify a truthy `href` of every `link`. -/
def linkRule (target : String) (e : Elem) : Elem :=
  if e.tag = "link" then
    match getAttr e "href" with
    | some href => if href = "" then e else setAttr e "href" (proxify target href)
    | none => e
  else e

/-- Form pass, lines 189-194: proxify the `action`, defaulting an empty
or missing one to the page target. -/
def formRule (target : String) (e : Elem) : Elem :=
  if e.tag = "form" then
    setAttr e "action"
      (proxify target (if (getAttr e "action").getD "" = "" then target
                       else (getAttr e "action").getD ""))
  else e

/-- Rewrite of one srcset entry, lines 203-206: first
whitespace-separated token through `proxify`, a truthy second token kept
as descriptor, anything further dropped by `split(/\s+/, 2)`. -/
def srcsetEntryRewrite (target entry : String) : String :=
  match ((splitWsAux entry.data).map String.mk).take 2 with
  | [] => proxify target ""
  | [u] => proxify target u
  | u :: d :: _ => proxify target u ++ (if d ≠ "" then " " ++ d else "")

/-- Srcset attribute rewrite, lines 200-207: split on commas, trim each
entry, rewrite it, and join with `", "`. -/
def srcsetRewrite (target raw : String) : String :=
  jsJoin ", "
    (((jsSplitChar ',' raw.data).map (fun l => jsTrim (String.mk l))).map
      (srcsetEntryRewrite target))

/-- Srcset pass, lines 197-208: applies to any element carrying a truthy
`srcset` attribute. -/
def srcsetRule (target : String) (e : Elem) : Elem :=
  match getAttr e "srcset" with
  | some raw => if raw = "" then e else setAttr e "srcset" (srcsetRewrite target raw)
  | none => e

/-- First index in the list at which the closing quote immediately
followed by `)` occurs; the search fails at a line terminator, which the
regex's `.` cannot match. -/
def findCloseIdx (q : Char) : List Char → Option Nat
  | [] => none
  | [_] => none
  | a :: b :: rest =>
    if a = '\n' ∨ a = '\r' then none
    else if a = q ∧ b = ')' then some 0
    else (findCloseIdx q (b :: rest)).map (· + 1)

/-- First index of `)` before any line terminator. -/
def findParenIdx : List Char → Option Nat
  | [] => none
  | a :: rest =>
    if a = '\n' ∨ a = '\r' then none
    else if a = ')' then some 0
    else (findParenIdx rest).map (· + 1)

/-- Match attempt for the regex `url\((['"]?)(.*?)\1\)` immediately
after `url(`: a quoted body first, falling back (regex backtracking on
the optional quote group) to an unquoted body up to the first `)`. -/
def cssTryMatch (rest : List Char) : Option (String × String × List Char) :=
  match rest with
  | [] => none
  | q :: rest1 =>
    if q = '\'' ∨ q = '"' then
      match findCloseIdx q rest1 with
      | some i => some (String.mk [q], String.mk (rest1.take i), rest1.drop (i + 2))
      | none =>
        match findParenIdx rest with
        | some i => some ("", String.mk (rest.take i), rest.drop (i + 1))
        | none => none
    else
      match findParenIdx rest with
      | some i => some ("", String.mk (rest.take i), rest.drop (i + 1))
      | none => none

/-- Replacement callback of lines 216-220 and 228-231: `data:` and
`javascript:` bodies are re-emitted unchanged, anything else is
proxified, preserving the quote style. -/
def cssReplaceOne (target q content : String) : String :=
  if jsStartsWith content "data:" || jsStartsWith content "javascript:" then
    "url(" ++ q ++ content ++ q ++ ")"
  else "url(" ++ q ++ proxify target content ++ q ++ ")"

/-- Scan for `url(...)` occurrences (the `replace` with the global
regex).  Fuel decreases every step and at least one character is
consumed per step, so fuel equal to the input length suffices; on a
failed match the scan re-emits `url(` and continues, which agrees with
the regex engine's one-character advance because `url(` cannot overlap
itself. -/
def cssUrlGo (target : String) : Nat → List Char → List Char
  | 0, l => l
  | _ + 1, [] => []
  | fuel + 1, 'u' :: 'r' :: 'l' :: '(' :: rest =>
    (match cssTryMatch rest with
     | some (q, content, rem) => (cssReplaceOne target q content).data ++ cssUrlGo target fuel rem
     | none => 'u' :: 'r' :: 'l' :: '(' :: cssUrlGo target fuel rest)
  | fuel + 1, c :: rest => c :: cssUrlGo target fuel rest

/-- CSS `url(...)` rewrite of a style string, lines 214-221 / 228-232. -/
def cssUrlRewrite (target css : String) : String :=
  String.mk (cssUrlGo target (css.data.length + 1) css.data)

/-- Inline-style pass, lines 211-223: rewrite `url(...)` occurrences of
a truthy `style` attribute. -/
def styleAttrRule (target : String) (e : Elem) : Elem :=
  match getAttr e "style" with
  | some style => if style = "" then e else setAttr e "style" (cssUrlRewrite target style)
  | none => e

/-- Style-block pass, lines 226-234: rewrite the CSS text of `<style>`
elements. -/
def styleTagRule (target : String) (e : Elem) : Elem :=
  if e.tag = "style" then setText e (cssUrlRewrite target e.text) else e

/-- All per-node rewrite rules composed in source order. -/
def rewriteElem (target : String) (e : Elem) : Elem :=
  styleTagRule target (styleAttrRule target (srcsetRule target (formRule target
    (linkRule target (resourceRule target (anchorRule target e))))))

/-- The HTML rewrite branch over a parsed document. -/
def rewriteDoc (target : String) (doc : List Elem) : List Elem :=
  doc.map (rewriteElem target)

/-! ## Meta-refresh rewrite (`src/pages/API/proxy.js` lines 33-39) -/

/-- Characters `encodeURIComponent` leaves unescaped. -/
def isUriUnreserved (c : Char) : Bool :=
  c.isAlpha || c.isDigit || c == '-' || c == '_' || c == '.' || c == '!' || c == '~' ||
  c == '*' || c == '\'' || c == '(' || c == ')'

/-- Uppercase hexadecimal digit. -/
def hexDigit (n : Nat) : Char :=
  if n < 10 then Char.ofNat ('0'.toNat + n) else Char.ofNat ('A'.toNat + (n - 10))

/-- Percent-encoding of one character over its UTF-8 bytes. -/
def percentEncodeChar (c : Char) : List Char :=
  if isUriUnreserved c then [c]
  else (utf8EncodeChar c).foldr (fun b acc => '%' :: hexDigit (b / 16) :: hexDigit (b % 16) :: acc) []

/-- Model of JavaScript `encodeURIComponent`. -/
def encodeURIComponent (s : String) : String :=
  String.mk (s.data.foldr (fun c acc => percentEncodeChar c ++ acc) [])

/-- Meta-refresh content rewrite of `src/pages/API/proxy.js` lines
33-39: split the `content` attribute on `";url="`; when a truthy second
piece exists, resolve it against the target and rebuild the attribute as
`<delay>;url=/api/proxy?url=<encodeURIComponent(resolved)>`; a throwing
`new URL` propagates to that handler's catch (a 500), modelled as
`.error`. -/
def metaRefreshRewrite (targetUrl content : String) : Except String String :=
  match jsSplitStr content ";url=" with
  | p0 :: p1 :: _ =>
    if p1 ≠ "" then
      match resolveURL p1 targetUrl with
      | some resolved => .ok (p0 ++ ";url=/api/proxy?url=" ++ encodeURIComponent resolved)
      | none => .error "Error fetching URL"
    else .ok content
  | _ => .ok content

/-! ## C7: srcset splitting -/

/-- Modelled from the spec: "split on commas into `(url, descriptor)`
pairs; resolve+encode each URL; reassemble preserving descriptors and
comma/space formatting" — the original separators and spacing are kept
verbatim and only the URL token of each entry is replaced.  (Used only
to compare against the source's `srcsetRewrite`.) -/
def srcsetRewriteSpec (target raw : String) : String :=
  jsJoin ","
    ((jsSplitChar ',' raw.data).map (fun entry =>
      String.mk (entry.takeWhile Char.isWhitespace) ++
      proxify target (String.mk ((entry.dropWhile Char.isWhitespace).takeWhile
        (fun c => !c.isWhitespace))) ++
      String.mk ((entry.dropWhile Char.isWhitespace).dropWhile (fun c => !c.isWhitespace))))

/-- A srcset URL or descriptor token: non-empty, no whitespace, no comma. -/
def cleanToken (s : String) : Prop :=
  s.data ≠ [] ∧ ∀ c ∈ s.data, c.isWhitespace = false ∧ c ≠ ','

instance cleanTokenDecidable (s : String) : Decidable (cleanToken s) :=
  inferInstanceAs (Decidable (s.data ≠ [] ∧ ∀ c ∈ s.data, c.isWhitespace = false ∧ c ≠ ','))

/-- A srcset attribute in normalized `url descriptor, url descriptor`
form. -/
def mkSrcset (entries : List (String × String)) : String :=
  jsJoin ", " (entries.map (fun p => p.1 ++ " " ++ p.2))

/-! ## Theorems -/

theorem utf8DecodeOne_length (b : Nat) (bs : List Nat) (c : Char) (rest : List Nat)
    (h : utf8DecodeOne b bs = some (c, rest)) : rest.length ≤ bs.length := by
  rw [utf8DecodeOne.eq_def] at h
  repeat' split at h
  all_goals simp only [Option.some.injEq, Prod.mk.injEq, reduceCtorEq] at h
  all_goals obtain ⟨-, h2⟩ := h
  all_goals subst h2
  all_goals try simp only [List.length_cons]
  all_goals omega

theorem utf8DecodeFuel_le :
    ∀ (f1 f2 : Nat) (l : List Nat), l.length ≤ f1 → l.length ≤ f2 →
      utf8DecodeFuel f1 l = utf8DecodeFuel f2 l
  | f1, f2, [], _, _ => by cases f1 <;> cases f2 <;> rfl
  | 0, _, _ :: _, h1, _ => by simp at h1
  | _ + 1, 0, _ :: _, _, h2 => by simp at h2
  | f1 + 1, f2 + 1, b :: bs, h1, h2 => by
    rw [utf8DecodeFuel, utf8DecodeFuel]
    cases hone : utf8DecodeOne b bs with
    | none => rfl
    | some cr =>
      have hlen := utf8DecodeOne_length b bs cr.1 cr.2 (by rw [hone])
      simp only [List.length_cons] at h1 h2
      show Option.map (fun cs => cr.1 :: cs) (utf8DecodeFuel f1 cr.2) =
        Option.map (fun cs => cr.1 :: cs) (utf8DecodeFuel f2 cr.2)
      rw [utf8DecodeFuel_le f1 f2 cr.2 (by omega) (by omega)]

theorem utf8Decode_cons (b : Nat) (bs : List Nat) (c : Char) (rest : List Nat)
    (h : utf8DecodeOne b bs = some (c, rest)) :
    utf8Decode (b :: bs) = (utf8Decode rest).map (fun cs => c :: cs) := by
  have hlen := utf8DecodeOne_length b bs c rest h
  show utf8DecodeFuel (b :: bs).length (b :: bs) = _
  rw [show (b :: bs).length = bs.length + 1 from rfl, utf8DecodeFuel, h]
  show Option.map (fun cs => c :: cs) (utf8DecodeFuel bs.length rest) = _
  rw [utf8DecodeFuel_le bs.length rest.length rest hlen (Nat.le_refl _)]
  rfl

theorem char_ofNat_toNat (c : Char) : Char.ofNat c.toNat = c := by
  have h : c.toNat.isValidChar := c.valid
  rw [Char.ofNat, dif_pos h]
  rfl

theorem utf8DecodeOne_encodeChar (c : Char) (rest : List Nat) :
    ∃ b bs, utf8EncodeChar c ++ rest = b :: bs ∧ utf8DecodeOne b bs = some (c, rest) := by
  have hv : c.toNat < 0xd800 ∨ (0xdfff < c.toNat ∧ c.toNat < 0x110000) := c.valid
  by_cases h1 : c.toNat < 0x80
  · refine ⟨c.toNat, rest, by rw [utf8EncodeChar, if_pos h1]; rfl, ?_⟩
    rw [utf8DecodeOne.eq_def, if_pos h1, char_ofNat_toNat]
  · by_cases h2 : c.toNat < 0x800
    · refine ⟨0xC0 + c.toNat / 64, (0x80 + c.toNat % 64) :: rest,
        by rw [utf8EncodeChar, if_neg h1, if_pos h2]; rfl, ?_⟩
      rw [utf8DecodeOne.eq_def, if_neg (by omega), if_pos (by constructor <;> omega)]
      show (if 0x80 ≤ 0x80 + c.toNat % 64 ∧ 0x80 + c.toNat % 64 < 0xC0 then
        some (Char.ofNat ((0xC0 + c.toNat / 64 - 0xC0) * 64 + (0x80 + c.toNat % 64 - 0x80)),
          rest) else none) = some (c, rest)
      rw [if_pos (by constructor <;> omega)]
      have hn : (0xC0 + c.toNat / 64 - 0xC0) * 64 + (0x80 + c.toNat % 64 - 0x80) = c.toNat := by
        omega
      rw [hn, char_ofNat_toNat]
    · by_cases h3 : c.toNat < 0x10000
      · refine ⟨0xE0 + c.toNat / 4096, (0x80 + c.toNat / 64 % 64) :: (0x80 + c.toNat % 64) :: rest,
          by rw [utf8EncodeChar, if_neg h1, if_neg h2, if_pos h3]; rfl, ?_⟩
        rw [utf8DecodeOne.eq_def, if_neg (by omega), if_neg (by omega),
          if_pos (by constructor <;> omega)]
        have hn : (0xE0 + c.toNat / 4096 - 0xE0) * 4096 +
            (0x80 + c.toNat / 64 % 64 - 0x80) * 64 + (0x80 + c.toNat % 64 - 0x80) = c.toNat := by
          omega
        show (if 0x80 ≤ 0x80 + c.toNat / 64 % 64 ∧ 0x80 + c.toNat / 64 % 64 < 0xC0 ∧
            0x80 ≤ 0x80 + c.toNat % 64 ∧ 0x80 + c.toNat % 64 < 0xC0 ∧
            0x800 ≤ (0xE0 + c.toNat / 4096 - 0xE0) * 4096 +
              (0x80 + c.toNat / 64 % 64 - 0x80) * 64 + (0x80 + c.toNat % 64 - 0x80) ∧
            ¬(0xD800 ≤ (0xE0 + c.toNat / 4096 - 0xE0) * 4096 +
                (0x80 + c.toNat / 64 % 64 - 0x80) * 64 + (0x80 + c.toNat % 64 - 0x80) ∧
              (0xE0 + c.toNat / 4096 - 0xE0) * 4096 +
                (0x80 + c.toNat / 64 % 64 - 0x80) * 64 + (0x80 + c.toNat % 64 - 0x80) < 0xE000)
          then some (Char.ofNat ((0xE0 + c.toNat / 4096 - 0xE0) * 4096 +
            (0x80 + c.toNat / 64 % 64 - 0x80) * 64 + (0x80 + c.toNat % 64 - 0x80)), rest)
          else none) = some (c, rest)
        rw [if_pos (by rw [hn]; refine ⟨by omega, by omega, by omega, by omega, by omega, ?_⟩
                       omega), hn, char_ofNat_toNat]
      · refine ⟨0xF0 + c.toNat / 262144, (0x80 + c.toNat / 4096 % 64) ::
            (0x80 + c.toNat / 64 % 64) :: (0x80 + c.toNat % 64) :: rest,
          by rw [utf8EncodeChar, if_neg h1, if_neg h2, if_neg h3]; rfl, ?_⟩
        have hlt : c.toNat < 0x110000 := by omega
        rw [utf8DecodeOne.eq_def, if_neg (by omega), if_neg (by omega), if_neg (by omega),
          if_pos (by constructor <;> omega)]
        have hn : (0xF0 + c.toNat / 262144 - 0xF0) * 262144 +
            (0x80 + c.toNat / 4096 % 64 - 0x80) * 4096 +
            (0x80 + c.toNat / 64 % 64 - 0x80) * 64 + (0x80 + c.toNat % 64 - 0x80) = c.toNat := by
          omega
        show (if 0x80 ≤ 0x80 + c.toNat / 4096 % 64 ∧ 0x80 + c.toNat / 4096 % 64 < 0xC0 ∧
            0x80 ≤ 0x80 + c.toNat / 64 % 64 ∧ 0x80 + c.toNat / 64 % 64 < 0xC0 ∧
            0x80 ≤ 0x80 + c.toNat % 64 ∧ 0x80 + c.toNat % 64 < 0xC0 ∧
            0x10000 ≤ (0xF0 + c.toNat / 262144 - 0xF0) * 262144 +
              (0x80 + c.toNat / 4096 % 64 - 0x80) * 4096 +
              (0x80 + c.toNat / 64 % 64 - 0x80) * 64 + (0x80 + c.toNat % 64 - 0x80) ∧
            (0xF0 + c.toNat / 262144 - 0xF0) * 262144 +
              (0x80 + c.toNat / 4096 % 64 - 0x80) * 4096 +
              (0x80 + c.toNat / 64 % 64 - 0x80) * 64 + (0x80 + c.toNat % 64 - 0x80) < 0x110000
          then some (Char.ofNat ((0xF0 + c.toNat / 262144 - 0xF0) * 262144 +
            (0x80 + c.toNat / 4096 % 64 - 0x80) * 4096 +
            (0x80 + c.toNat / 64 % 64 - 0x80) * 64 + (0x80 + c.toNat % 64 - 0x80)), rest)
          else none) = some (c, rest)
        rw [if_pos (by rw [hn]
                       refine ⟨by omega, by omega, by omega, by omega, by omega, by omega,
                         by omega, by omega⟩), hn, char_ofNat_toNat]

theorem utf8Decode_encodeChar (c : Char) (rest : List Nat) :
    utf8Decode (utf8EncodeChar c ++ rest) = (utf8Decode rest).map (fun cs => c :: cs) := by
  obtain ⟨b, bs, heq, hone⟩ := utf8DecodeOne_encodeChar c rest
  rw [heq, utf8Decode_cons b bs c rest hone]

theorem utf8Decode_encodeList : ∀ (l : List Char), utf8Decode (utf8EncodeList l) = some l
  | [] => by rw [utf8EncodeList]; rfl
  | c :: cs => by
    rw [utf8EncodeList, utf8Decode_encodeChar, utf8Decode_encodeList cs]
    rfl

theorem utf8EncodeChar_lt (c : Char) : ∀ b ∈ utf8EncodeChar c, b < 256 := by
  rw [utf8EncodeChar]
  split
  · intro b hb; simp at hb; omega
  · split
    · intro b hb; simp at hb
      rcases hb with h | h <;> omega
    · split
      · intro b hb; simp at hb
        rcases hb with h | h | h <;> omega
      · intro b hb; simp at hb
        have : c.toNat < 0x110000 := by
          rcases (show c.toNat < 0xd800 ∨ (0xdfff < c.toNat ∧ c.toNat < 0x110000) from c.valid)
            with h' | h' <;> omega
        rcases hb with h | h | h | h <;> omega

theorem utf8EncodeList_lt : ∀ (l : List Char), ∀ b ∈ utf8EncodeList l, b < 256
  | [], _, hb => by simp [utf8EncodeList] at hb
  | c :: cs, b, hb => by
    rw [utf8EncodeList] at hb
    rcases List.mem_append.1 hb with h | h
    · exact utf8EncodeChar_lt c b h
    · exact utf8EncodeList_lt cs b h

theorem sextetVal_sextetToChar : ∀ s, s < 64 → sextetVal (sextetToChar s) = some s := by
  decide

theorem b64DecodeBytes_encodeBytes :
    ∀ (bs : List Nat), (∀ b ∈ bs, b < 256) → b64DecodeBytes (b64EncodeBytes bs) = some bs
  | [], _ => rfl
  | [a], h => by
    have ha : a < 256 := h a (by simp)
    have e1 := sextetVal_sextetToChar (a / 4) (by omega)
    have e2 := sextetVal_sextetToChar (a % 4 * 16) (by omega)
    rw [b64EncodeBytes]
    simp only [b64DecodeBytes, e1, e2, Option.bind_eq_bind, Option.some_bind, Option.pure_def, Option.some.injEq]
    have : a / 4 * 4 + a % 4 * 16 / 16 = a := by omega
    rw [this]
  | [a, b], h => by
    have ha : a < 256 := h a (by simp)
    have hb : b < 256 := h b (by simp)
    have e1 := sextetVal_sextetToChar (a / 4) (by omega)
    have e2 := sextetVal_sextetToChar (a % 4 * 16 + b / 16) (by omega)
    have e3 := sextetVal_sextetToChar (b % 16 * 4) (by omega)
    rw [b64EncodeBytes]
    simp only [b64DecodeBytes, e1, e2, e3, Option.bind_eq_bind, Option.some_bind, Option.pure_def, Option.some.injEq]
    have f1 : a / 4 * 4 + (a % 4 * 16 + b / 16) / 16 = a := by omega
    have f2 : (a % 4 * 16 + b / 16) % 16 * 16 + b % 16 * 4 / 4 = b := by omega
    rw [f1, f2]
  | a :: b :: c :: rest, h => by
    have ha : a < 256 := h a (by simp)
    have hb : b < 256 := h b (by simp)
    have hc : c < 256 := h c (by simp)
    have ih := b64DecodeBytes_encodeBytes rest (fun x hx => h x (by simp [hx]))
    have e1 := sextetVal_sextetToChar (a / 4) (by omega)
    have e2 := sextetVal_sextetToChar (a % 4 * 16 + b / 16) (by omega)
    have e3 := sextetVal_sextetToChar (b % 16 * 4 + c / 64) (by omega)
    have e4 := sextetVal_sextetToChar (c % 64) (by omega)
    rw [b64EncodeBytes]
    simp only [b64DecodeBytes, e1, e2, e3, e4, ih, Option.bind_eq_bind, Option.some_bind, Option.pure_def,
      Option.some.injEq]
    have f1 : a / 4 * 4 + (a % 4 * 16 + b / 16) / 16 = a := by omega
    have f2 : (a % 4 * 16 + b / 16) % 16 * 16 + (b % 16 * 4 + c / 64) / 4 = b := by omega
    have f3 : (b % 16 * 4 + c / 64) % 4 * 64 + c % 64 = c := by omega
    rw [f1, f2, f3]

theorem string_mk_data (s : String) : String.mk s.data = s := rfl

theorem sextetToChar_safe : ∀ s, s < 64 → sextetToChar s ≠ '+' ∧ sextetToChar s ≠ '/' ∧
    sextetToChar s ≠ '=' := by
  decide

theorem b64EncodeBytes_safe :
    ∀ (bs : List Nat), (∀ b ∈ bs, b < 256) →
      ∀ c ∈ b64EncodeBytes bs, c ≠ '+' ∧ c ≠ '/' ∧ c ≠ '='
  | [], _, c, hc => by simp [b64EncodeBytes] at hc
  | [a], h, c, hc => by
    have ha : a < 256 := h a (by simp)
    rw [b64EncodeBytes] at hc
    simp only [List.mem_cons, List.not_mem_nil, or_false] at hc
    rcases hc with hc | hc
    · exact hc ▸ sextetToChar_safe _ (by omega)
    · exact hc ▸ sextetToChar_safe _ (by omega)
  | [a, b], h, c, hc => by
    have ha : a < 256 := h a (by simp)
    have hb : b < 256 := h b (by simp)
    rw [b64EncodeBytes] at hc
    simp only [List.mem_cons, List.not_mem_nil, or_false] at hc
    rcases hc with hc | hc | hc
    · exact hc ▸ sextetToChar_safe _ (by omega)
    · exact hc ▸ sextetToChar_safe _ (by omega)
    · exact hc ▸ sextetToChar_safe _ (by omega)
  | a :: b :: c' :: rest, h, c, hc => by
    have ha : a < 256 := h a (by simp)
    have hb : b < 256 := h b (by simp)
    have hc' : c' < 256 := h c' (by simp)
    rw [b64EncodeBytes] at hc
    simp only [List.mem_cons, List.not_mem_nil, or_false] at hc
    rcases hc with hc | hc | hc | hc | hc
    · exact hc ▸ sextetToChar_safe _ (by omega)
    · exact hc ▸ sextetToChar_safe _ (by omega)
    · exact hc ▸ sextetToChar_safe _ (by omega)
    · exact hc ▸ sextetToChar_safe _ (by omega)
    · exact b64EncodeBytes_safe rest (fun x hx => h x (by simp [hx])) c hc

/-- C1: for every valid absolute `http`/`https` URL `u`, decoding the
token produced by encoding `u` yields exactly `u`, and the token uses
no `+`, `/` or `=` characters. -/
theorem c1_encode_decode_roundtrip (u : String) (h : isHttpUrl u = true) :
    b64Decode (b64Encode u) = some u ∧
    ∀ c ∈ (b64Encode u).data, c ≠ '+' ∧ c ≠ '/' ∧ c ≠ '=' := by
  constructor
  · show (b64DecodeBytes (b64EncodeBytes (utf8EncodeList u.data))).bind _ = some u
    rw [b64DecodeBytes_encodeBytes _ (utf8EncodeList_lt u.data), Option.some_bind,
      utf8Decode_encodeList, Option.map_some', string_mk_data]
  · intro c hc
    exact b64EncodeBytes_safe _ (utf8EncodeList_lt u.data) c hc

/-- Witness for C1 at the concrete URL `https://example.com/app`. -/
theorem c1_encode_decode_roundtrip_witness :
    isHttpUrl "https://example.com/app" = true ∧
    (b64Decode (b64Encode "https://example.com/app") = some "https://example.com/app" ∧
     ∀ c ∈ (b64Encode "https://example.com/app").data, c ≠ '+' ∧ c ≠ '/' ∧ c ≠ '=') :=
  ⟨by decide, c1_encode_decode_roundtrip "https://example.com/app" (by decide)⟩

theorem utf8LossyOne_length (b : Nat) (bs : List Nat) :
    (utf8LossyOne b bs).2.length ≤ bs.length := by
  rw [utf8LossyOne.eq_def]
  repeat' split
  all_goals first
  | (simp; omega)
  | simp

theorem utf8LossyFuel_le :
    ∀ (f1 f2 : Nat) (l : List Nat), l.length ≤ f1 → l.length ≤ f2 →
      utf8LossyFuel f1 l = utf8LossyFuel f2 l
  | f1, f2, [], _, _ => by cases f1 <;> cases f2 <;> rfl
  | 0, _, _ :: _, h1, _ => by simp at h1
  | _ + 1, 0, _ :: _, _, h2 => by simp at h2
  | f1 + 1, f2 + 1, b :: bs, h1, h2 => by
    rw [utf8LossyFuel, utf8LossyFuel]
    have hlen := utf8LossyOne_length b bs
    simp only [List.length_cons] at h1 h2
    rw [utf8LossyFuel_le f1 f2 (utf8LossyOne b bs).2 (by omega) (by omega)]

theorem utf8DecodeLossy_cons (b : Nat) (bs : List Nat) :
    utf8DecodeLossy (b :: bs) =
      (utf8LossyOne b bs).1 :: utf8DecodeLossy (utf8LossyOne b bs).2 := by
  have hlen := utf8LossyOne_length b bs
  show utf8LossyFuel (b :: bs).length (b :: bs) = _
  rw [show (b :: bs).length = bs.length + 1 from rfl, utf8LossyFuel,
    utf8LossyFuel_le bs.length (utf8LossyOne b bs).2.length (utf8LossyOne b bs).2 hlen
      (Nat.le_refl _)]
  rfl

theorem utf8LossyOne_of_strict (b : Nat) (bs : List Nat) (c : Char) (rest : List Nat)
    (h : utf8DecodeOne b bs = some (c, rest)) : utf8LossyOne b bs = (c, rest) := by
  rw [utf8DecodeOne.eq_def] at h
  by_cases h1 : b < 0x80
  · rw [if_pos h1] at h
    simp only [Option.some.injEq, Prod.mk.injEq] at h
    obtain ⟨hc, hr⟩ := h
    subst hc; subst hr
    rw [utf8LossyOne.eq_def, if_pos h1]
  · rw [if_neg h1] at h
    by_cases h2 : 0xC2 ≤ b ∧ b < 0xE0
    · rw [if_pos h2] at h
      cases bs with
      | nil => exact Option.noConfusion h
      | cons b1 bs1 =>
        have h' : (if 0x80 ≤ b1 ∧ b1 < 0xC0 then
            some (Char.ofNat ((b - 0xC0) * 64 + (b1 - 0x80)), bs1)
          else none) = some (c, rest) := h
        by_cases hb1 : 0x80 ≤ b1 ∧ b1 < 0xC0
        · rw [if_pos hb1] at h'
          simp only [Option.some.injEq, Prod.mk.injEq] at h'
          obtain ⟨hc, hr⟩ := h'
          subst hc; subst hr
          rw [utf8LossyOne.eq_def, if_neg h1, if_pos h2]
          show (if 0x80 ≤ b1 ∧ b1 < 0xC0 then
              (Char.ofNat ((b - 0xC0) * 64 + (b1 - 0x80)), bs1)
            else (Char.ofNat 0xFFFD, b1 :: bs1)) = _
          rw [if_pos hb1]
        · rw [if_neg hb1] at h'
          exact Option.noConfusion h'
    · rw [if_neg h2] at h
      by_cases h3 : 0xE0 ≤ b ∧ b < 0xF0
      · rw [if_pos h3] at h
        cases bs with
        | nil => exact Option.noConfusion h
        | cons b1 bs1 =>
          cases bs1 with
          | nil => exact Option.noConfusion h
          | cons b2 bs2 =>
            have h' : (if 0x80 ≤ b1 ∧ b1 < 0xC0 ∧ 0x80 ≤ b2 ∧ b2 < 0xC0 ∧
                0x800 ≤ (b - 0xE0) * 4096 + (b1 - 0x80) * 64 + (b2 - 0x80) ∧
                ¬(0xD800 ≤ (b - 0xE0) * 4096 + (b1 - 0x80) * 64 + (b2 - 0x80) ∧
                  (b - 0xE0) * 4096 + (b1 - 0x80) * 64 + (b2 - 0x80) < 0xE000) then
                some (Char.ofNat ((b - 0xE0) * 4096 + (b1 - 0x80) * 64 + (b2 - 0x80)), bs2)
              else none) = some (c, rest) := h
            by_cases hcond : 0x80 ≤ b1 ∧ b1 < 0xC0 ∧ 0x80 ≤ b2 ∧ b2 < 0xC0 ∧
                0x800 ≤ (b - 0xE0) * 4096 + (b1 - 0x80) * 64 + (b2 - 0x80) ∧
                ¬(0xD800 ≤ (b - 0xE0) * 4096 + (b1 - 0x80) * 64 + (b2 - 0x80) ∧
                  (b - 0xE0) * 4096 + (b1 - 0x80) * 64 + (b2 - 0x80) < 0xE000)
            · rw [if_pos hcond] at h'
              simp only [Option.some.injEq, Prod.mk.injEq] at h'
              obtain ⟨hc, hr⟩ := h'
              subst hc; subst hr
              rw [utf8LossyOne.eq_def, if_neg h1, if_neg h2, if_pos h3]
              show (if 0x80 ≤ b1 ∧ b1 < 0xC0 ∧ (b = 0xE0 → 0xA0 ≤ b1) ∧
                  (b = 0xED → b1 ≤ 0x9F) then
                  (if 0x80 ≤ b2 ∧ b2 < 0xC0 then
                    (Char.ofNat ((b - 0xE0) * 4096 + (b1 - 0x80) * 64 + (b2 - 0x80)), bs2)
                  else (Char.ofNat 0xFFFD, b2 :: bs2))
                else (Char.ofNat 0xFFFD, b1 :: b2 :: bs2)) = _
              rw [if_pos (by omega), if_pos (by omega)]
            · rw [if_neg hcond] at h'
              exact Option.noConfusion h'
      · rw [if_neg h3] at h
        by_cases h4 : 0xF0 ≤ b ∧ b < 0xF5
        · rw [if_pos h4] at h
          cases bs with
          | nil => exact Option.noConfusion h
          | cons b1 bs1 =>
            cases bs1 with
            | nil => exact Option.noConfusion h
            | cons b2 bs2 =>
              cases bs2 with
              | nil => exact Option.noConfusion h
              | cons b3 bs3 =>
                have h' : (if 0x80 ≤ b1 ∧ b1 < 0xC0 ∧ 0x80 ≤ b2 ∧ b2 < 0xC0 ∧
                    0x80 ≤ b3 ∧ b3 < 0xC0 ∧
                    0x10000 ≤ (b - 0xF0) * 262144 + (b1 - 0x80) * 4096 + (b2 - 0x80) * 64 +
                      (b3 - 0x80) ∧
                    (b - 0xF0) * 262144 + (b1 - 0x80) * 4096 + (b2 - 0x80) * 64 +
                      (b3 - 0x80) < 0x110000 then
                    some (Char.ofNat ((b - 0xF0) * 262144 + (b1 - 0x80) * 4096 +
                      (b2 - 0x80) * 64 + (b3 - 0x80)), bs3)
                  else none) = some (c, rest) := h
                by_cases hcond : 0x80 ≤ b1 ∧ b1 < 0xC0 ∧ 0x80 ≤ b2 ∧ b2 < 0xC0 ∧
                    0x80 ≤ b3 ∧ b3 < 0xC0 ∧
                    0x10000 ≤ (b - 0xF0) * 262144 + (b1 - 0x80) * 4096 + (b2 - 0x80) * 64 +
                      (b3 - 0x80) ∧
                    (b - 0xF0) * 262144 + (b1 - 0x80) * 4096 + (b2 - 0x80) * 64 +
                      (b3 - 0x80) < 0x110000
                · rw [if_pos hcond] at h'
                  simp only [Option.some.injEq, Prod.mk.injEq] at h'
                  obtain ⟨hc, hr⟩ := h'
                  subst hc; subst hr
                  rw [utf8LossyOne.eq_def, if_neg h1, if_neg h2, if_neg h3, if_pos h4]
                  show (if 0x80 ≤ b1 ∧ b1 < 0xC0 ∧ (b = 0xF0 → 0x90 ≤ b1) ∧
                      (b = 0xF4 → b1 ≤ 0x8F) then
                      (if 0x80 ≤ b2 ∧ b2 < 0xC0 then
                        (if 0x80 ≤ b3 ∧ b3 < 0xC0 then
                          (Char.ofNat ((b - 0xF0) * 262144 + (b1 - 0x80) * 4096 +
                            (b2 - 0x80) * 64 + (b3 - 0x80)), bs3)
                        else (Char.ofNat 0xFFFD, b3 :: bs3))
                      else (Char.ofNat 0xFFFD, b2 :: b3 :: bs3))
                    else (Char.ofNat 0xFFFD, b1 :: b2 :: b3 :: bs3)) = _
                  rw [if_pos (by omega), if_pos (by omega), if_pos (by omega)]
                · rw [if_neg hcond] at h'
                  exact Option.noConfusion h'
        · rw [if_neg h4] at h
          exact Option.noConfusion h

theorem utf8Decode_cons_inv (b : Nat) (bs : List Nat) (l : List Char)
    (h : utf8Decode (b :: bs) = some l) :
    ∃ c rest l2, utf8DecodeOne b bs = some (c, rest) ∧ utf8Decode rest = some l2 ∧
      l = c :: l2 := by
  have h2 : utf8DecodeFuel (bs.length + 1) (b :: bs) = some l := h
  rw [utf8DecodeFuel] at h2
  cases hone : utf8DecodeOne b bs with
  | none =>
    rw [hone] at h2
    have h3 : (none : Option (List Char)) = some l := h2
    cases h3
  | some cr =>
    obtain ⟨c, rest⟩ := cr
    rw [hone] at h2
    have h3 : (utf8DecodeFuel bs.length rest).map (fun cs => c :: cs) = some l := h2
    rcases Option.map_eq_some'.1 h3 with ⟨l2, hl2, hfl⟩
    have hlen := utf8DecodeOne_length b bs c rest hone
    refine ⟨c, rest, l2, rfl, ?_, hfl.symm⟩
    show utf8DecodeFuel rest.length rest = some l2
    rw [utf8DecodeFuel_le rest.length bs.length rest (Nat.le_refl _) hlen, hl2]

theorem utf8DecodeLossy_of_strict :
    ∀ (n : Nat) (bs : List Nat), bs.length ≤ n →
      ∀ l, utf8Decode bs = some l → utf8DecodeLossy bs = l
  | _, [], _, l, h => by
    have h2 : (some [] : Option (List Char)) = some l := h
    cases h2
    rfl
  | 0, _ :: _, hlen, _, _ => by simp at hlen
  | n + 1, b :: bs, hlen, l, h => by
    obtain ⟨c, rest, l2, hone, hrest, rfl⟩ := utf8Decode_cons_inv b bs l h
    rw [utf8DecodeLossy_cons, utf8LossyOne_of_strict b bs c rest hone]
    show c :: utf8DecodeLossy rest = c :: l2
    have hlen2 := utf8DecodeOne_length b bs c rest hone
    simp only [List.length_cons] at hlen
    rw [utf8DecodeLossy_of_strict n rest (by omega) l2 hrest]

theorem sextetLenient_of_strict (c : Char) (v : Nat) (h : sextetVal c = some v) :
    b64SextetLenient c = some v := by
  rw [sextetVal] at h
  rw [b64SextetLenient]
  split_ifs at h ⊢ <;> simp_all

theorem b64Filter_group_of_strict :
    ∀ (cs : List Char) (bs : List Nat), b64DecodeBytes cs = some bs →
      b64SextetsToBytes (b64FilterChars cs) = bs
  | [], bs, h => by
    have h2 : (some [] : Option (List Nat)) = some bs := h
    cases h2
    rfl
  | [_], bs, h => by
    have h2 : (none : Option (List Nat)) = some bs := h
    cases h2
  | [c1, c2], bs, h => by
    simp only [b64DecodeBytes, Option.bind_eq_bind] at h
    cases hs1 : sextetVal c1 with
    | none => rw [hs1] at h; simp at h
    | some s1 =>
      rw [hs1, Option.some_bind] at h
      cases hs2 : sextetVal c2 with
      | none => rw [hs2] at h; simp at h
      | some s2 =>
        rw [hs2, Option.some_bind] at h
        simp only [Option.pure_def, Option.some.injEq] at h
        subst h
        simp only [b64FilterChars, sextetLenient_of_strict c1 s1 hs1,
          sextetLenient_of_strict c2 s2 hs2]
        rfl
  | [c1, c2, c3], bs, h => by
    simp only [b64DecodeBytes, Option.bind_eq_bind] at h
    cases hs1 : sextetVal c1 with
    | none => rw [hs1] at h; simp at h
    | some s1 =>
      rw [hs1, Option.some_bind] at h
      cases hs2 : sextetVal c2 with
      | none => rw [hs2] at h; simp at h
      | some s2 =>
        rw [hs2, Option.some_bind] at h
        cases hs3 : sextetVal c3 with
        | none => rw [hs3] at h; simp at h
        | some s3 =>
          rw [hs3, Option.some_bind] at h
          simp only [Option.pure_def, Option.some.injEq] at h
          subst h
          simp only [b64FilterChars, sextetLenient_of_strict c1 s1 hs1,
            sextetLenient_of_strict c2 s2 hs2, sextetLenient_of_strict c3 s3 hs3]
          rfl
  | c1 :: c2 :: c3 :: c4 :: cs, bs, h => by
    simp only [b64DecodeBytes, Option.bind_eq_bind] at h
    cases hs1 : sextetVal c1 with
    | none => rw [hs1] at h; simp at h
    | some s1 =>
      rw [hs1, Option.some_bind] at h
      cases hs2 : sextetVal c2 with
      | none => rw [hs2] at h; simp at h
      | some s2 =>
        rw [hs2, Option.some_bind] at h
        cases hs3 : sextetVal c3 with
        | none => rw [hs3] at h; simp at h
        | some s3 =>
          rw [hs3, Option.some_bind] at h
          cases hs4 : sextetVal c4 with
          | none => rw [hs4] at h; simp at h
          | some s4 =>
            rw [hs4, Option.some_bind] at h
            cases htail : b64DecodeBytes cs with
            | none => rw [htail] at h; simp at h
            | some tail =>
              rw [htail, Option.some_bind] at h
              simp only [Option.pure_def, Option.some.injEq] at h
              subst h
              simp only [b64FilterChars, sextetLenient_of_strict c1 s1 hs1,
                sextetLenient_of_strict c2 s2 hs2, sextetLenient_of_strict c3 s3 hs3,
                sextetLenient_of_strict c4 s4 hs4]
              show (s1 * 4 + s2 / 16) :: (s2 % 16 * 16 + s3 / 4) :: (s3 % 4 * 64 + s4) ::
                b64SextetsToBytes (b64FilterChars cs) = _
              rw [b64Filter_group_of_strict cs tail htail]

theorem b64DecodeLenient_of_strict (t u : String) (h : b64Decode t = some u) :
    b64DecodeLenient t = u := by
  rw [b64Decode] at h
  cases hb : b64DecodeBytes t.data with
  | none => rw [hb] at h; simp at h
  | some bs =>
    rw [hb, Option.some_bind] at h
    rcases Option.map_eq_some'.1 h with ⟨cs, hcs, rfl⟩
    rw [b64DecodeLenient, b64Filter_group_of_strict t.data bs hb,
      utf8DecodeLossy_of_strict bs.length bs (Nat.le_refl _) cs hcs]

theorem b64DecodeLenient_encode (u : String) : b64DecodeLenient (b64Encode u) = u := by
  apply b64DecodeLenient_of_strict
  show (b64DecodeBytes (b64EncodeBytes (utf8EncodeList u.data))).bind _ = some u
  rw [b64DecodeBytes_encodeBytes _ (utf8EncodeList_lt u.data), Option.some_bind,
    utf8Decode_encodeList, Option.map_some', string_mk_data]

/-- C3 counterexample: the claim exempts `tel:` references and `#`
fragment references from rewriting, but `proxify` checks only
`javascript:`, `data:` and `mailto:` prefixes (its comment notwithstanding),
so both a fragment reference and a `tel:` reference are resolved against
the target and replaced with proxy-addressed tokens. -/
theorem c3_counterexample :
    proxify "https://example.com/app" "#top" ≠ "#top" ∧
    proxify "https://example.com/app" "tel:+15551234567" ≠ "tel:+15551234567" ∧
    proxify "https://example.com/app" "#top" =
      "/p/" ++ b64Encode "https://example.com/app#top" ∧
    proxify "https://example.com/app" "tel:+15551234567" =
      "/p/" ++ b64Encode "tel:+15551234567" :=
  ⟨by decide, by decide, by decide, by decide⟩

/-- C3 (amended): a reference prefixed `javascript:`, `data:` or
`mailto:` is emitted unchanged by the rewriter, never resolved against
the base nor replaced with a proxy-addressed token; `tel:` and in-page
`#` references are not exempt (they are resolved and rewritten when
resolution succeeds). -/
theorem c3_opaque_scheme_passthrough (target url : String)
    (h : jsStartsWith url "javascript:" = true ∨ jsStartsWith url "data:" = true ∨
      jsStartsWith url "mailto:" = true) :
    proxify target url = url := by
  by_cases he : url = ""
  · simp [proxify, he]
  · have hb : (jsStartsWith url "javascript:" || jsStartsWith url "data:" ||
        jsStartsWith url "mailto:") = true := by
      rcases h with h | h | h <;> simp [h]
  
    rw [proxify, if_neg he, if_pos hb]

/-- Witness for C3's amended statement at `javascript:void(0)`. -/
theorem c3_opaque_scheme_passthrough_witness :
    jsStartsWith "javascript:void(0)" "javascript:" = true ∧
    proxify "https://example.com/app" "javascript:void(0)" = "javascript:void(0)" :=
  ⟨by decide,
   c3_opaque_scheme_passthrough "https://example.com/app" "javascript:void(0)"
     (Or.inl (by decide))⟩

theorem forward_foldl_lookup (req : String → Option String) :
    ∀ (names : List String) (acc : String → Option String) (name : String),
      (names.foldl (forwardStep req) acc) name =
        if name ∈ names ∧ truthy (req name) then req name else acc name
  | [], acc, name => by simp
  | n :: ns, acc, name => by
    rw [List.foldl_cons, forward_foldl_lookup req ns (forwardStep req acc n) name]
    by_cases hmem : name ∈ ns ∧ truthy (req name)
    · rw [if_pos hmem, if_pos ⟨List.mem_cons_of_mem n hmem.1, hmem.2⟩]
    · rw [if_neg hmem, forwardStep]
      by_cases heq : name = n
      · subst heq
        cases hr : req name with
        | none => simp [truthy, hr]
        | some v =>
          by_cases hv : v = ""
          · subst hv
            simp [truthy, hr]
          · simp [truthy, hr, hv, updateHeader]
      · have hnotin : ¬(name ∈ n :: ns ∧ truthy (req name) = true) := fun hin => by
          rcases List.mem_cons.1 hin.1 with h | h
          · exact heq h
          · exact hmem ⟨h, hin.2⟩
        rw [if_neg hnotin]
        cases hrn : req n with
        | none => rfl
        | some v =>
          show (if v ≠ "" then updateHeader acc n v else acc) name = acc name
          split
          · simp [updateHeader, heq]
          · rfl

theorem applyCookie_lookup (req : String → Option String) (flag : Option String)
    (h : String → Option String) (name : String) :
    applyCookie req flag h name =
      if name = "cookie" ∧ flag = some "1" ∧ truthy (req "cookie") then req "cookie"
      else h name := by
  rw [applyCookie]
  cases hr : req "cookie" with
  | none => simp [truthy, hr]
  | some v =>
    by_cases hv : v = ""
    · subst hv
      simp [truthy, hr]
    · by_cases hf : flag = some "1"
      · by_cases hn : name = "cookie"
        · subst hn
          simp [truthy, hr, hv, hf, updateHeader]
        · simp [truthy, hr, hv, hf, updateHeader, hn]
      · simp [truthy, hr, hv, hf]

theorem applyRange_lookup (req : String → Option String) (h : String → Option String)
    (name : String) :
    applyRange req h name =
      if name = "range" ∧ truthy (req "range") then req "range" else h name := by
  rw [applyRange]
  cases hr : req "range" with
  | none => simp [truthy, hr]
  | some v =>
    by_cases hv : v = ""
    · subst hv
      simp [truthy, hr]
    · by_cases hn : name = "range"
      · subst hn
        simp [truthy, hr, hv, updateHeader]
      · simp [truthy, hr, hv, updateHeader, hn]

/-- C9: the headers forwarded to the upstream fetch are exactly the
truthy inbound members of the allow-list, plus `cookie` exactly when
`forwardCookies=1` and an inbound cookie is present; `referer` and
`origin` are never forwarded. -/
theorem c9_forwarded_headers (req : String → Option String) (flag : Option String)
    (name : String) :
    buildForwardHeaders req flag name =
      (if name ∈ FORWARD_ALLOW ∧ truthy (req name) then req name
       else if name = "cookie" ∧ flag = some "1" ∧ truthy (req "cookie") then req "cookie"
       else none) ∧
    buildForwardHeaders req flag "referer" = none ∧
    buildForwardHeaders req flag "origin" = none := by
  have main : ∀ q, buildForwardHeaders req flag q =
      (if q ∈ FORWARD_ALLOW ∧ truthy (req q) then req q
       else if q = "cookie" ∧ flag = some "1" ∧ truthy (req "cookie") then req "cookie"
       else none) := by
    intro q
    rw [buildForwardHeaders, applyRange_lookup, applyCookie_lookup,
      forward_foldl_lookup req FORWARD_ALLOW emptyHeaders q]
    by_cases hr : q = "range" ∧ truthy (req "range")
    · rw [if_pos hr, if_pos ⟨hr.1 ▸ (by decide : "range" ∈ FORWARD_ALLOW), hr.1 ▸ hr.2⟩, hr.1]
    · rw [if_neg hr]
      by_cases hc : q = "cookie" ∧ flag = some "1" ∧ truthy (req "cookie")
      · rw [if_pos hc, if_neg (fun hin => by
          have : q = "cookie" := hc.1
          subst this
          exact absurd hin.1 (by decide)), if_pos hc]
      · rw [if_neg hc]
        by_cases ha : q ∈ FORWARD_ALLOW ∧ truthy (req q)
        · have hq : ¬(q = "range" ∧ truthy (req "range")) := hr
          rw [if_pos ha, if_pos ha]
        · rw [if_neg ha, if_neg ha, if_neg hc, emptyHeaders]
  refine ⟨main name, ?_, ?_⟩
  · rw [main "referer", if_neg (fun h => absurd h.1 (by decide)),
      if_neg (fun h => absurd h.1 (by decide))]
  · rw [main "origin", if_neg (fun h => absurd h.1 (by decide)),
      if_neg (fun h => absurd h.1 (by decide))]

/-- C4: a 3xx upstream response with a `Location` header is answered by
resolving the location against the fetched target, encoding it, setting
the outbound `Location` to the proxy-addressed form, forwarding the
status unchanged, and sending an empty body. -/
theorem c4_redirect_location_rewritten (target : String) (up : Upstream)
    (loc resolved : String)
    (h3xx : 300 ≤ up.status ∧ up.status < 400)
    (hloc : up.headers "location" = some loc) (hne : loc ≠ "")
    (hres : resolveURL loc target = some resolved) :
    ∃ out, redirectStep target up = .ok (some out) ∧ out.status = up.status ∧
      out.body = "" ∧ out.headers "location" = some ("/p/" ++ b64Encode resolved) := by
  refine ⟨⟨up.status,
    updateHeader (baseOutHeaders up.headers) "location" ("/p/" ++ b64Encode resolved), ""⟩,
    ?_, rfl, rfl, ?_⟩
  · rw [redirectStep, if_pos h3xx, hloc]
    show (if loc = "" then _ else _) = _
    rw [if_neg hne, hres]
  · simp [updateHeader]

/-- Witness for C4: upstream `302` with `Location: /login` fetched from
`https://example.com/app` produces outbound `Location` equal to the
proxy path for the token of `https://example.com/login`, status 302,
empty body. -/
theorem c4_redirect_location_rewritten_witness :
    resolveURL "/login" "https://example.com/app" = some "https://example.com/login" ∧
    b64Encode "https://example.com/login" = "aHR0cHM6Ly9leGFtcGxlLmNvbS9sb2dpbg" ∧
    ∃ out, redirectStep "https://example.com/app"
        ⟨302, fun k => if k = "location" then some "/login" else none⟩ = .ok (some out) ∧
      out.status = 302 ∧ out.body = "" ∧
      out.headers "location" = some ("/p/" ++ "aHR0cHM6Ly9leGFtcGxlLmNvbS9sb2dpbg") := by
  refine ⟨by decide, by decide, ?_⟩
  obtain ⟨out, h1, h2, h3, h4⟩ := c4_redirect_location_rewritten "https://example.com/app"
    ⟨302, fun k => if k = "location" then some "/login" else none⟩ "/login"
    "https://example.com/login" (by decide) (by decide) (by decide) (by decide)
  exact ⟨out, h1, h2, h3, by rw [h4]; decide⟩

/-- C10: a 3xx upstream response without a `Location` header still takes
the redirect branch: the upstream status is forwarded, the body is
empty, and no outbound `Location` header is set. -/
theorem c10_redirect_without_location (target : String) (up : Upstream)
    (h3xx : 300 ≤ up.status ∧ up.status < 400)
    (hloc : up.headers "location" = none) :
    ∃ out, redirectStep target up = .ok (some out) ∧ out.status = up.status ∧
      out.body = "" ∧ out.headers "location" = none := by
  refine ⟨⟨up.status, baseOutHeaders up.headers, ""⟩, ?_, rfl, rfl, ?_⟩
  · rw [redirectStep, if_pos h3xx, hloc]
  · show baseOutHeaders up.headers "location" = none
    rw [baseOutHeaders, updateHeader]
    rw [if_neg (by decide), copyUpstreamHeaders, if_neg (by decide), hloc]

/-- Witness for C10 at a concrete `307` response with no headers at all. -/
theorem c10_redirect_without_location_witness :
    ∃ out, redirectStep "https://example.com/app"
        ⟨307, fun _ => none⟩ = .ok (some out) ∧ out.status = 307 ∧
      out.body = "" ∧ out.headers "location" = none :=
  c10_redirect_without_location "https://example.com/app" ⟨307, fun _ => none⟩
    (by decide) rfl

theorem length_dropWhile_le (p : Char → Bool) :
    ∀ (l : List Char), (l.dropWhile p).length ≤ l.length
  | [] => Nat.le_refl _
  | c :: rest => by
    rw [List.dropWhile_cons]
    split
    · exact Nat.le_trans (length_dropWhile_le p rest) (by simp)
    · simp

theorem setAttrList_find_self : ∀ (l : List (String × String)) (k v : String),
    (setAttrList l k v).find? (fun p => p.1 == k) = some (k, v)
  | [], k, v => by simp [setAttrList]
  | (a, b) :: rest, k, v => by
    rw [setAttrList]
    by_cases h : a = k
    · rw [if_pos h]
      simp
    · rw [if_neg h, List.find?_cons_of_neg _ (by simp [h]), setAttrList_find_self rest k v]

theorem setAttrList_find_ne : ∀ (l : List (String × String)) (k v q : String), q ≠ k →
    (setAttrList l k v).find? (fun p => p.1 == q) = l.find? (fun p => p.1 == q)
  | [], k, v, q, h => by
    rw [setAttrList, List.find?_cons_of_neg _ (by simp [Ne.symm h])]
  | (a, b) :: rest, k, v, q, h => by
    rw [setAttrList]
    by_cases ha : a = k
    · rw [if_pos ha]
      subst ha
      rw [List.find?_cons_of_neg _ (by simp [Ne.symm h]),
        List.find?_cons_of_neg _ (by simp [Ne.symm h])]
    · rw [if_neg ha]
      by_cases haq : a = q
      · rw [List.find?_cons_of_pos _ (by simp [haq]), List.find?_cons_of_pos _ (by simp [haq])]
      · rw [List.find?_cons_of_neg _ (by simp [haq]), List.find?_cons_of_neg _ (by simp [haq]),
          setAttrList_find_ne rest k v q h]

theorem getAttr_setAttr_self (e : Elem) (k v : String) : getAttr (setAttr e k v) k = some v := by
  show ((setAttrList e.attrs k v).find? (fun p => p.1 == k)).map Prod.snd = some v
  rw [setAttrList_find_self]
  rfl

theorem getAttr_setAttr_ne (e : Elem) (k v q : String) (h : q ≠ k) :
    getAttr (setAttr e k v) q = getAttr e q := by
  show ((setAttrList e.attrs k v).find? (fun p => p.1 == q)).map Prod.snd = _
  rw [setAttrList_find_ne e.attrs k v q h]
  rfl

/-- C8 counterexample: the claim requires `rel` to become the
duplicate-free union with `noreferrer noopener`, but the code appends
the two tokens unconditionally, so an anchor already carrying
`rel="noreferrer"` ends up with `noreferrer` twice. -/
theorem c8_counterexample :
    getAttr (anchorRule "https://t.example/"
        ⟨"a", [("href", "x.html"), ("rel", "noreferrer")], ""⟩) "rel" =
      some "noreferrer noreferrer noopener" ∧
    (jsSplitWs "noreferrer noreferrer noopener").count "noreferrer" = 2 :=
  ⟨by decide, by decide⟩

/-- C8 (amended): for every `<a>` with a truthy `href`, the rewriter
sets `href` to the proxified reference and sets `rel` to the previous
`rel` value (or empty) with the string `" noreferrer noopener"`
appended and the result trimmed — both tokens are appended even when
already present, so tokens may repeat. -/
theorem c8_anchor_rel_appended (target : String) (e : Elem) (href : String)
    (htag : e.tag = "a") (hhref : getAttr e "href" = some href) (hne : href ≠ "") :
    getAttr (anchorRule target e) "href" = some (proxify target href) ∧
    getAttr (anchorRule target e) "rel" =
      some (jsTrim (((getAttr e "rel").getD "") ++ " noreferrer noopener")) := by
  have hb : anchorRule target e =
      setAttr (setAttr e "href" (proxify target href)) "rel"
        (jsTrim (((getAttr (setAttr e "href" (proxify target href)) "rel").getD "") ++
          " noreferrer noopener")) := by
    rw [anchorRule, if_pos htag, hhref]
    show (if href = "" then e else _) = _
    rw [if_neg hne]
  refine ⟨?_, ?_⟩
  · rw [hb, getAttr_setAttr_ne _ _ _ _ (show ("href" : String) ≠ "rel" by decide),
      getAttr_setAttr_self]
  · rw [hb, getAttr_setAttr_self,
      getAttr_setAttr_ne _ _ _ _ (show ("rel" : String) ≠ "href" by decide)]

/-- Witness for C8's amended statement: an anchor with `href="x.html"`
and no previous `rel`. -/
theorem c8_anchor_rel_appended_witness :
    getAttr (anchorRule "https://t.example/" ⟨"a", [("href", "x.html")], ""⟩) "href" =
      some (proxify "https://t.example/" "x.html") ∧
    getAttr (anchorRule "https://t.example/" ⟨"a", [("href", "x.html")], ""⟩) "rel" =
      some (jsTrim (((getAttr ⟨"a", [("href", "x.html")], ""⟩ "rel").getD "") ++
        " noreferrer noopener")) :=
  c8_anchor_rel_appended "https://t.example/" ⟨"a", [("href", "x.html")], ""⟩ "x.html"
    rfl (by decide) (by decide)

/-- C5 counterexample: rewriting the output of one rewrite a second
time (with the proxy's own origin as the target) is not byte-identical
to the single rewrite — the already-proxy-addressed token is encoded
again and `rel` receives the privacy tokens a second time. -/
theorem c5_counterexample :
    rewriteDoc "https://proxy.example/" (rewriteDoc "https://t.example/"
        [⟨"a", [("href", "a.html")], ""⟩]) ≠
      rewriteDoc "https://t.example/" [⟨"a", [("href", "a.html")], ""⟩] := by
  decide

/-- C5 (amended): rewriting is not idempotent; a second rewrite with
the proxy's own origin as target re-encodes each already-proxy-addressed
token — an anchor `href="/p/<t>"` becomes
`/p/<encode(origin ++ "/p/" ++ t)>` — and appends
`" noreferrer noopener"` to `rel` again, as the concrete document
`<a href="a.html">` exhibits. -/
theorem c5_second_rewrite_double_encodes :
    rewriteDoc "https://proxy.example/" (rewriteDoc "https://t.example/"
        [⟨"a", [("href", "a.html")], ""⟩]) =
      [⟨"a", [("href", "/p/" ++ b64Encode ("https://proxy.example/p/" ++
          b64Encode "https://t.example/a.html")),
        ("rel", "noreferrer noopener noreferrer noopener")], ""⟩] := by
  decide

/-- C6: for a meta-refresh content of the form `N;url=X` (split on
`";url="`), the rewriter resolves `X` against the base, replaces it with
the proxy-addressed encoded form, and preserves the delay prefix `N`
unchanged. -/
theorem c6_meta_refresh_rewrite (target content n x resolved : String)
    (hsplit : jsSplitStr content ";url=" = [n, x]) (hx : x ≠ "")
    (hres : resolveURL x target = some resolved) :
    metaRefreshRewrite target content =
      .ok (n ++ ";url=/api/proxy?url=" ++ encodeURIComponent resolved) := by
  rw [metaRefreshRewrite, hsplit]
  show (if x ≠ "" then
      (match resolveURL x target with
       | some r => Except.ok (n ++ ";url=/api/proxy?url=" ++ encodeURIComponent r)
       | none => Except.error "Error fetching URL")
    else Except.ok content) = _
  rw [if_pos hx, hres]

/-- Witness for C6: content `5;url=/next` against base
`https://example.com/a/b`. -/
theorem c6_meta_refresh_rewrite_witness :
    jsSplitStr "5;url=/next" ";url=" = ["5", "/next"] ∧
    resolveURL "/next" "https://example.com/a/b" = some "https://example.com/next" ∧
    metaRefreshRewrite "https://example.com/a/b" "5;url=/next" =
      .ok "5;url=/api/proxy?url=https%3A%2F%2Fexample.com%2Fnext" := by
  refine ⟨by decide, by decide, ?_⟩
  rw [c6_meta_refresh_rewrite "https://example.com/a/b" "5;url=/next" "5" "/next"
    "https://example.com/next" (by decide) (by decide) (by decide)]
  congr 1

theorem jsSplitChar_eq_single (sep : Char) :
    ∀ (l : List Char), sep ∉ l → jsSplitChar sep l = [l]
  | [], _ => rfl
  | c :: rest, h => by
    have hc : ¬(c = sep) := fun hh => h (hh ▸ List.mem_cons_self c rest)
    rw [jsSplitChar, if_neg hc,
      jsSplitChar_eq_single sep rest (fun hm => h (List.mem_cons_of_mem c hm))]

theorem jsSplitChar_append (sep : Char) :
    ∀ (l1 l2 : List Char), sep ∉ l1 →
      jsSplitChar sep (l1 ++ sep :: l2) = l1 :: jsSplitChar sep l2
  | [], l2, _ => by rw [List.nil_append, jsSplitChar, if_pos rfl]
  | c :: rest, l2, h => by
    have hc : ¬(c = sep) := fun hh => h (hh ▸ List.mem_cons_self c rest)
    rw [List.cons_append, jsSplitChar, if_neg hc,
      jsSplitChar_append sep rest l2 (fun hm => h (List.mem_cons_of_mem c hm))]

theorem splitWsAux_single :
    ∀ (l : List Char), l ≠ [] → (∀ c ∈ l, c.isWhitespace = false) → splitWsAux l = [l]
  | [], h, _ => absurd rfl h
  | [c], _, hws => by
    rw [splitWsAux, if_neg (by simp [hws c (by simp)])]
  | c :: d :: rest, _, hws => by
    rw [splitWsAux, if_neg (by simp [hws c (by simp)]),
      splitWsAux_single (d :: rest) (by simp) (fun x hx => hws x (List.mem_cons_of_mem c hx))]

theorem splitWsAux_pair :
    ∀ (u d : List Char), u ≠ [] → d ≠ [] →
      (∀ c ∈ u, c.isWhitespace = false) → (∀ c ∈ d, c.isWhitespace = false) →
      splitWsAux (u ++ ' ' :: d) = [u, d]
  | [], _, hu, _, _, _ => absurd rfl hu
  | [c], d, _, hd, hwu, hwd => by
    cases d with
    | nil => exact absurd rfl hd
    | cons d0 drest =>
      rw [List.cons_append, List.nil_append]
      have hsub : splitWsAux (' ' :: d0 :: drest) = [[], d0 :: drest] := by
        rw [splitWsAux, if_pos (by decide), if_neg (by simp [hwd d0 (by simp)]),
          splitWsAux_single (d0 :: drest) (by simp) hwd]
      rw [splitWsAux, if_neg (by simp [hwu c (by simp)]), hsub]
  | c :: c2 :: urest, d, _, hd, hwu, hwd => by
    have ih := splitWsAux_pair (c2 :: urest) d (by simp) hd
      (fun x hx => hwu x (List.mem_cons_of_mem c hx)) hwd
    rw [List.cons_append] at ih
    rw [List.cons_append, List.cons_append, splitWsAux,
      if_neg (by simp [hwu c (by simp)]), ih]

theorem dropWhile_ws_append :
    ∀ (pre l : List Char), (∀ c ∈ pre, c.isWhitespace = true) →
      (pre ++ l).dropWhile Char.isWhitespace = l.dropWhile Char.isWhitespace
  | [], l, _ => by rw [List.nil_append]
  | c :: rest, l, h => by
    rw [List.cons_append, List.dropWhile_cons, if_pos (by simp [h c (by simp)]),
      dropWhile_ws_append rest l (fun x hx => h x (List.mem_cons_of_mem c hx))]

theorem dropWhile_ws_cons_ne (c : Char) (l : List Char) (hc : c.isWhitespace = false) :
    (c :: l).dropWhile Char.isWhitespace = c :: l := by
  rw [List.dropWhile_cons, if_neg (by simp [hc])]

theorem jsTrim_pre (pre : List Char) (hpre : ∀ c ∈ pre, c.isWhitespace = true)
    (u d : String) (hu : u.data ≠ []) (hd : d.data ≠ [])
    (hwu : ∀ c ∈ u.data, c.isWhitespace = false)
    (hwd : ∀ c ∈ d.data, c.isWhitespace = false) :
    jsTrim (String.mk (pre ++ (u.data ++ ' ' :: d.data))) = u ++ " " ++ d := by
  obtain ⟨uc, urest, hue⟩ := List.exists_cons_of_ne_nil hu
  have hrevne : d.data.reverse ≠ [] := by simp [hd]
  obtain ⟨dc, drest, hde⟩ := List.exists_cons_of_ne_nil hrevne
  have hdc : dc.isWhitespace = false :=
    hwd dc (List.mem_reverse.1 (hde ▸ List.mem_cons_self dc drest))
  have huc : uc.isWhitespace = false := hwu uc (hue ▸ List.mem_cons_self uc urest)
  rw [jsTrim]
  show String.mk ((((pre ++ (u.data ++ ' ' :: d.data)).dropWhile
      Char.isWhitespace).reverse.dropWhile Char.isWhitespace).reverse) = u ++ " " ++ d
  rw [dropWhile_ws_append pre _ hpre, hue, List.cons_append, dropWhile_ws_cons_ne uc _ huc]
  have hshape : (uc :: (urest ++ ' ' :: d.data)).reverse =
      dc :: (drest ++ ' ' :: urest.reverse ++ [uc]) := by
    simp [hde, List.append_assoc]
  rw [hshape, dropWhile_ws_cons_ne dc _ hdc, ← hshape, List.reverse_reverse]
  have hfull : (u ++ " " ++ d).data = uc :: (urest ++ ' ' :: d.data) := by
    have hsp : (" " : String).data = [' '] := rfl
    simp [hsp, hue, List.append_assoc]
  rw [← hfull, string_mk_data]

theorem srcsetEntry_pair (t u d : String) (hu : u.data ≠ []) (hd : d.data ≠ [])
    (hwu : ∀ c ∈ u.data, c.isWhitespace = false)
    (hwd : ∀ c ∈ d.data, c.isWhitespace = false) :
    srcsetEntryRewrite t (u ++ " " ++ d) = proxify t u ++ " " ++ d := by
  have hdata : (u ++ " " ++ d).data = u.data ++ ' ' :: d.data := by
    have hsp : (" " : String).data = [' '] := rfl
    simp [hsp, List.append_assoc]
  rw [srcsetEntryRewrite, hdata, splitWsAux_pair u.data d.data hu hd hwu hwd]
  show proxify t (String.mk u.data) ++
      (if String.mk d.data ≠ "" then " " ++ String.mk d.data else "") = _
  rw [string_mk_data, string_mk_data,
    if_pos (show d ≠ "" from fun hh => hd (congrArg String.data hh))]
  apply String.ext
  simp [List.append_assoc]

theorem entry_no_comma (pre : List Char) (hpre : ∀ c ∈ pre, c.isWhitespace = true ∧ c ≠ ',')
    (u d : String) (hclu : ∀ c ∈ u.data, c.isWhitespace = false ∧ c ≠ ',')
    (hcld : ∀ c ∈ d.data, c.isWhitespace = false ∧ c ≠ ',') :
    ',' ∉ pre ++ (u.data ++ ' ' :: d.data) := by
  intro hm
  rcases List.mem_append.1 hm with hm | hm
  · exact (hpre _ hm).2 rfl
  · rcases List.mem_append.1 hm with hm | hm
    · exact (hclu _ hm).2 rfl
    · rcases List.mem_cons.1 hm with hm | hm
      · cases hm
      · exact (hcld _ hm).2 rfl

theorem srcset_pieces (t : String) :
    ∀ (pre : List Char) (entries : List (String × String)),
      (∀ c ∈ pre, c.isWhitespace = true ∧ c ≠ ',') →
      entries ≠ [] →
      (∀ p ∈ entries, cleanToken p.1 ∧ cleanToken p.2) →
      ((jsSplitChar ',' (pre ++ (mkSrcset entries).data)).map
        (fun l => jsTrim (String.mk l))).map (srcsetEntryRewrite t) =
      entries.map (fun p => proxify t p.1 ++ " " ++ p.2)
  | _, [], _, hne, _ => absurd rfl hne
  | pre, [(u, d)], hpre, _, hclean => by
    obtain ⟨⟨hu, hclu⟩, hd, hcld⟩ := hclean (u, d) (by simp)
    have hdata : (mkSrcset [(u, d)]).data = u.data ++ ' ' :: d.data := by
      show (u ++ " " ++ d).data = _
      have hsp : (" " : String).data = [' '] := rfl
      simp [hsp, List.append_assoc]
    rw [hdata, jsSplitChar_eq_single ',' _ (entry_no_comma pre hpre u d hclu hcld),
      List.map_cons, List.map_cons,
      jsTrim_pre pre (fun c hc => (hpre c hc).1) u d hu hd
        (fun c hc => (hclu c hc).1) (fun c hc => (hcld c hc).1),
      srcsetEntry_pair t u d hu hd (fun c hc => (hclu c hc).1) (fun c hc => (hcld c hc).1)]
    rfl
  | pre, (u, d) :: p2 :: rest, hpre, _, hclean => by
    obtain ⟨⟨hu, hclu⟩, hd, hcld⟩ := hclean (u, d) (by simp)
    have ih := srcset_pieces t [' '] (p2 :: rest)
      (by intro c hc; simp at hc; subst hc; exact ⟨by decide, by decide⟩)
      (by simp)
      (fun p hp => hclean p (List.mem_cons_of_mem _ hp))
    rw [List.singleton_append] at ih
    have hdata : pre ++ (mkSrcset ((u, d) :: p2 :: rest)).data =
        (pre ++ (u.data ++ ' ' :: d.data)) ++ ',' :: (' ' :: (mkSrcset (p2 :: rest)).data) := by
      show pre ++ ((u ++ " " ++ d) ++ ", " ++ mkSrcset (p2 :: rest)).data = _
      have hsp : (" " : String).data = [' '] := rfl
      have hcs : (", " : String).data = [',', ' '] := rfl
      simp [hsp, hcs, List.append_assoc]
    rw [hdata, jsSplitChar_append ',' _ _ (entry_no_comma pre hpre u d hclu hcld),
      List.map_cons, List.map_cons,
      jsTrim_pre pre (fun c hc => (hpre c hc).1) u d hu hd
        (fun c hc => (hclu c hc).1) (fun c hc => (hcld c hc).1),
      srcsetEntry_pair t u d hu hd (fun c hc => (hclu c hc).1) (fun c hc => (hcld c hc).1),
      ih, List.map_cons]
    rfl

/-- C7 counterexample: against the input `a.jpg 1x,b.jpg 2x` (comma, no
space) the source's rewrite emits `", "` between entries, so the
original comma/space formatting is not preserved; both outputs keep the
descriptors. -/
theorem c7_counterexample :
    srcsetRewrite "https://x.test/" "a.jpg 1x,b.jpg 2x" ≠
      srcsetRewriteSpec "https://x.test/" "a.jpg 1x,b.jpg 2x" ∧
    srcsetRewrite "https://x.test/" "a.jpg 1x,b.jpg 2x" =
      "/p/" ++ b64Encode "https://x.test/a.jpg" ++ " 1x, " ++
        ("/p/" ++ b64Encode "https://x.test/b.jpg" ++ " 2x") ∧
    srcsetRewriteSpec "https://x.test/" "a.jpg 1x,b.jpg 2x" =
      "/p/" ++ b64Encode "https://x.test/a.jpg" ++ " 1x," ++
        ("/p/" ++ b64Encode "https://x.test/b.jpg" ++ " 2x") :=
  ⟨by decide, by decide, by decide⟩

/-- C7 (amended): the rewriter splits the srcset value on commas, trims
each entry, resolves and encodes each entry's first token through the
proxy, keeps its descriptor with a single space, and rejoins the entries
with `", "` — descriptors are preserved, while the original comma/space
formatting is normalized to comma-space (hence preserved whenever the
input already uses `", "`, as in `srcset="a.jpg 1x, b.jpg 2x"`). -/
theorem c7_srcset_descriptors_preserved (target : String)
    (entries : List (String × String))
    (hclean : ∀ p ∈ entries, cleanToken p.1 ∧ cleanToken p.2) :
    srcsetRewrite target (mkSrcset entries) =
      jsJoin ", " (entries.map (fun p => proxify target p.1 ++ " " ++ p.2)) := by
  cases entries with
  | nil => rfl
  | cons p rest =>
    have hp := srcset_pieces target [] (p :: rest) (by simp) (by simp) hclean
    rw [List.nil_append] at hp
    rw [srcsetRewrite, hp]

/-- Witness for C7's amended statement: `srcset="a.jpg 1x, b.jpg 2x"`
against base `https://x.test/` rewrites both URLs with the descriptors
`1x` and `2x` intact and comma-space formatting. -/
theorem c7_srcset_descriptors_preserved_witness :
    (∀ p ∈ [("a.jpg", "1x"), ("b.jpg", "2x")], cleanToken p.1 ∧ cleanToken p.2) ∧
    srcsetRewrite "https://x.test/" "a.jpg 1x, b.jpg 2x" =
      "/p/aHR0cHM6Ly94LnRlc3QvYS5qcGc 1x, /p/aHR0cHM6Ly94LnRlc3QvYi5qcGc 2x" := by
  refine ⟨by decide, ?_⟩
  rw [show ("a.jpg 1x, b.jpg 2x" : String) = mkSrcset [("a.jpg", "1x"), ("b.jpg", "2x")]
      from by decide,
    c7_srcset_descriptors_preserved "https://x.test/" [("a.jpg", "1x"), ("b.jpg", "2x")]
      (by decide)]
  decide
